import Mathlib

/-!
# CatCollar alert controller

A shallow embedding of `CatCollar/DAC/DAC.cpp` (an Arduino sketch for an ESP32-C3 driving a
PCM5102 DAC over I2S) and a verification of its sample count, its sample values, its
write sequence and its poll loop.

* Integers of type `int` are `Int` with an explicit 32-bit wrap where a product can overflow.
* Values of type `float` and `double` are the rationals they denote.  The rounding of an
  arithmetic result to `float` / `double`, the library `sin` and the macro `PI` come from the
  toolchain, not from the sketch; they are the fields of a `Platform`.  Theorems about sample
  values hold for every platform that satisfies `Platform.Sound` (and `Platform.Accurate`
  where the value of the sine matters).
* The hardware is an `Env` (pin level over time, outcome and duration of every driver call);
  the program state is a `World` (clock, number of `i2s_write` calls, trace of effects).
  A conversion whose result C++ leaves undefined makes the computation `none`.

Main results: `numSamples_eq_floor` (sample count), `sample_is_truncation`,
`sample_within_volume_range`, `volume_boundaries` (sample values),
`playAlert_writes_88200_frames`, `playAlert_ignores_write_status` (write sequence),
`loop_plays_once_per_low_poll`, `trigger_read_only_at_polls` (poll loop),
`setup_validates_nothing`, `initI2S_ignores_driver_status` (start-up).
-/

namespace CatCollar

/-! ## Configuration -/

/-- The sound settings of the sketch: the four `#define`d numbers and the `volume` constant
of `playAlert` (as written in the source, before its conversion to `float`). -/
structure Config where
  SAMPLE_RATE : Int
  ALERT_DURATION_MS : Int
  DEBOUNCE_TIME_MS : Nat
  ALERT_FREQUENCY_HZ : Int
  volume : ℚ

/-- The values the sketch is compiled with. -/
def builtin : Config where
  SAMPLE_RATE := 44100
  ALERT_DURATION_MS := 2000
  DEBOUNCE_TIME_MS := 1000
  ALERT_FREQUENCY_HZ := 10000
  volume := 7 / 10

/-- GPIO number of the trigger input. -/
def TRIGGER_PIN : Nat := 10

/-- Logic level `LOW` of `digitalRead`. -/
def LOW : Bool := false

/-- Logic level `HIGH` of `digitalRead`. -/
def HIGH : Bool := true

/-- The validity conditions the specification lists for a profile: positive duration and rate,
a positive frequency below the Nyquist limit, a volume in `[0, 1]`.  The sketch has no
counterpart of this predicate. -/
def SpecValid (cfg : Config) : Prop :=
  0 < cfg.ALERT_DURATION_MS ∧ 0 < cfg.SAMPLE_RATE ∧ 0 < cfg.ALERT_FREQUENCY_HZ ∧
    2 * cfg.ALERT_FREQUENCY_HZ < cfg.SAMPLE_RATE ∧ 0 ≤ cfg.volume ∧ cfg.volume ≤ 1

instance (cfg : Config) : Decidable (SpecValid cfg) := by
  unfold SpecValid
  infer_instance

/-! ## Integer arithmetic -/

/-- Reduction of an integer to the 32-bit two's complement range of `int`. (Signed overflow
is undefined in C++; the compilers for the target wrap.) -/
def wrapInt32 (x : Int) : Int := (x + 2 ^ 31) % 2 ^ 32 - 2 ^ 31

/-- The sample count of `playAlert`:
`int num_samples = (ALERT_DURATION_MS * SAMPLE_RATE) / 1000;` with the product taken in `int`
and the division truncating toward zero. -/
def numSamples (cfg : Config) : Int :=
  Int.tdiv (wrapInt32 (cfg.ALERT_DURATION_MS * cfg.SAMPLE_RATE)) 1000

/-! ## Floating point -/

/-- What the toolchain supplies to the sample expression. -/
structure Platform where
  /-- The value of the Arduino macro `PI`, a `double`. -/
  PI : ℚ
  /-- The library function `sin` on `double`. -/
  sin : ℚ → ℚ
  /-- Rounding of an exact result to `float`. -/
  fl32 : ℚ → ℚ
  /-- Rounding of an exact result to `double`. -/
  fl64 : ℚ → ℚ

/-- Conversion of a floating-point value to an integer: the fractional part is discarded. -/
def truncToZero (x : ℚ) : Int := if 0 ≤ x then ⌊x⌋ else ⌈x⌉

/-- Assignment of a floating-point value to an `int16_t`: truncation toward zero; the result is
undefined (`none`) when the truncated value is not representable. -/
def toInt16 (x : ℚ) : Option Int :=
  let t := truncToZero x
  if -32768 ≤ t ∧ t ≤ 32767 then some t else none

/-- The argument of `sin` at index `i`: `2 * PI * ALERT_FREQUENCY_HZ * i / SAMPLE_RATE`,
evaluated left to right in `double`. -/
def phase (P : Platform) (cfg : Config) (i : Nat) : ℚ :=
  P.fl64 (P.fl64 (P.fl64 (P.fl64 (2 * P.PI) * cfg.ALERT_FREQUENCY_HZ) * i) / cfg.SAMPLE_RATE)

/-- The constant `const float volume = 0.7;`: the literal is a `double`, converted to
`float` by the initialisation. -/
def volumeFloat (P : Platform) (cfg : Config) : ℚ := P.fl32 (P.fl64 cfg.volume)

/-- The factor `volume * 32767`, a product taken in `float`. -/
def amplitudeScale (P : Platform) (cfg : Config) : ℚ :=
  P.fl32 (volumeFloat P cfg * 32767)

/-- The product of the `float` factor `volume * 32767` and a `double` sine value `s`,
taken in `double`. -/
def scaled (P : Platform) (cfg : Config) (s : ℚ) : ℚ :=
  P.fl64 (amplitudeScale P cfg * s)

/-- The right-hand side `volume * 32767 * sin(...)` at index `i`, a `double`. -/
def waveValue (P : Platform) (cfg : Config) (i : Nat) : ℚ :=
  scaled P cfg (P.sin (phase P cfg i))

/-- The value assigned to `sample` at index `i`. -/
def sampleAt (P : Platform) (cfg : Config) (i : Nat) : Option Int :=
  toInt16 (waveValue P cfg i)

/-! ## Hardware and program state -/

/-- The lines the sketch prints on the serial console. -/
inductive SerialMsg
  /-- "Initializing cat collar alert system..." -/
  | initializingSystem
  /-- "System ready. Waiting for trigger..." -/
  | systemReady
  /-- "Trigger detected!" -/
  | triggerDetected
  /-- "Initializing I2S for PCM5102..." -/
  | initializingI2S
  /-- "I2S initialized successfully" -/
  | i2sInitializedSuccessfully
  /-- "ALERT: Playing alert sound" -/
  | playingAlert
  /-- "Alert sound complete" -/
  | alertComplete
  deriving DecidableEq, Repr

/-- An effect of the sketch on its surroundings. -/
inductive Event
  | serialBegin (baud : Nat)
  | println (m : SerialMsg)
  | pinModeInputPullup (pin : Nat)
  | digitalRead (pin : Nat) (level : Bool)
  | driverInstall (ok : Bool)
  | setPin (ok : Bool)
  | i2sWrite (sample : Int) (ok : Bool)
  | delay (ms : Nat)
  deriving DecidableEq, Repr

/-- The surroundings of the sketch. Times are microseconds since boot. -/
structure Env where
  /-- Level of the trigger line at a given time (`true` is `HIGH`). -/
  pinLevel : Nat → Bool
  /-- Whether `i2s_driver_install` returns `ESP_OK`. -/
  driverInstallOk : Bool
  /-- Whether `i2s_set_pin` returns `ESP_OK`. -/
  setPinOk : Bool
  /-- Whether the `n`-th call of `i2s_write` (counted from 0) returns `ESP_OK`. -/
  writeOk : Nat → Bool
  /-- How long the `n`-th call of `i2s_write` blocks. -/
  writeMicros : Nat → Nat

/-- The state of a run: the clock, the number of `i2s_write` calls made, and the effects so
far, oldest first, each with the time at which it happened. -/
structure World where
  now : Nat
  nWrites : Nat
  trace : List (Nat × Event)

/-- The state at boot. -/
def World.boot : World := ⟨0, 0, []⟩

/-- Appends an effect at the current time. -/
def World.emit (w : World) (e : Event) : World :=
  { w with trace := w.trace ++ [(w.now, e)] }

/-- `Serial.println(m)`. -/
def Serial_println (m : SerialMsg) (w : World) : World := w.emit (Event.println m)

/-- `delay(ms)`: the clock advances, nothing else happens. -/
def delay (ms : Nat) (w : World) : World :=
  { w.emit (Event.delay ms) with now := w.now + 1000 * ms }

/-- `digitalRead(pin)`: the level of the line now. -/
def digitalRead (env : Env) (pin : Nat) (w : World) : Bool × World :=
  (env.pinLevel w.now, w.emit (Event.digitalRead pin (env.pinLevel w.now)))

/-- `i2s_write(I2S_NUM_0, &sample, sizeof(sample), &bytes_written, portMAX_DELAY)`: one 16-bit
sample is offered to the driver; the call blocks for as long as the driver needs. The sketch
discards the returned status, so only the new state is returned. -/
def i2s_write (env : Env) (sample : Int) (w : World) : World :=
  { now := w.now + env.writeMicros w.nWrites
    nWrites := w.nWrites + 1
    trace := w.trace ++ [(w.now, Event.i2sWrite sample (env.writeOk w.nWrites))] }

/-! ## The sketch -/

/-- `initI2S()`: announces itself, installs the driver, sets the pins and prints the success
line. The status returned by either driver call is discarded. -/
def initI2S (env : Env) (w : World) : World :=
  let w := Serial_println SerialMsg.initializingI2S w
  let w := w.emit (Event.driverInstall env.driverInstallOk)
  let w := w.emit (Event.setPin env.setPinOk)
  Serial_println SerialMsg.i2sInitializedSuccessfully w

/-- `setup()`. -/
def setup (env : Env) (w : World) : World :=
  let w := w.emit (Event.serialBegin 115200)
  let w := Serial_println SerialMsg.initializingSystem w
  let w := w.emit (Event.pinModeInputPullup TRIGGER_PIN)
  let w := initI2S env w
  Serial_println SerialMsg.systemReady w

/-- The `for (int i = 0; i < num_samples; i++)` loop of `playAlert`, entered at index `i`:
the sample is computed and written twice, once per channel. -/
def playLoop (P : Platform) (cfg : Config) (env : Env) (n : Int) (i : Nat) (w : World) :
    Option World :=
  if (i : Int) < n then
    match sampleAt P cfg i with
    | none => none
    | some sample =>
      let w := i2s_write env sample w
      let w := i2s_write env sample w
      playLoop P cfg env n (i + 1) w
  else some w
termination_by (n - i).toNat
decreasing_by omega

/-- `playAlert()`. -/
def playAlert (P : Platform) (cfg : Config) (env : Env) (w : World) : Option World :=
  let w := Serial_println SerialMsg.playingAlert w
  (playLoop P cfg env (numSamples cfg) 0 w).map (Serial_println SerialMsg.alertComplete)

/-- One pass of `loop()`. -/
def loop (P : Platform) (cfg : Config) (env : Env) (w : World) : Option World :=
  let (level, w) := digitalRead env TRIGGER_PIN w
  if level = LOW then
    let w := Serial_println SerialMsg.triggerDetected w
    match playAlert P cfg env w with
    | none => none
    | some w =>
      let w := delay cfg.DEBOUNCE_TIME_MS w
      some (delay 10 w)
  else some (delay 10 w)

/-- The Arduino runtime: `setup()` once, then `loop()` again and again; the state after `n`
passes. -/
def run (P : Platform) (cfg : Config) (env : Env) : Nat → Option World
  | 0 => some (setup env World.boot)
  | n + 1 => (run P cfg env n).bind (loop P cfg env)

/-! ## Reading a trace -/

/-- The samples offered to `i2s_write`, in call order. -/
def writeAttempts : List (Nat × Event) → List Int
  | [] => []
  | (_, Event.i2sWrite s _) :: t => s :: writeAttempts t
  | _ :: t => writeAttempts t

/-- The samples the driver accepted, in order: the stream the DAC receives. -/
def accepted : List (Nat × Event) → List Int
  | [] => []
  | (_, Event.i2sWrite s true) :: t => s :: accepted t
  | _ :: t => accepted t

/-- The stereo frames of a 16-bit two-channel stream: consecutive samples pair up. -/
def frames : List Int → List (Int × Int)
  | l :: r :: t => (l, r) :: frames t
  | _ => []

/-- The times at which `playAlert` was entered (its first line was printed). -/
def playTimes : List (Nat × Event) → List Nat
  | [] => []
  | (t, Event.println SerialMsg.playingAlert) :: r => t :: playTimes r
  | _ :: r => playTimes r

/-- The times at which the trigger line was read. -/
def pollTimes : List (Nat × Event) → List Nat
  | [] => []
  | (t, Event.digitalRead _ _) :: r => t :: pollTimes r
  | _ :: r => pollTimes r

/-! ## Assumptions on the toolchain -/

/-- What is assumed of the floating-point operations, all of it true of IEEE 754
round-to-nearest `binary32` / `binary64` and of a library sine: rounding is monotone and odd,
keeps small integers, keeps a `float` when it is widened to `double`, keeps a `double`, has
relative error at most half a unit in the last place on the normal range, and the sine stays
within `[-1, 1]`. Overflow does not occur in the ranges the sketch reaches. -/
structure Platform.Sound (P : Platform) : Prop where
  fl32_mono : Monotone P.fl32
  fl64_mono : Monotone P.fl64
  fl32_int : ∀ n : ℤ, |n| ≤ 2 ^ 24 → P.fl32 n = n
  fl32_neg : ∀ x : ℚ, P.fl32 (-x) = -P.fl32 x
  fl64_fl32 : ∀ x : ℚ, P.fl64 (P.fl32 x) = P.fl32 x
  fl64_idem : ∀ x : ℚ, P.fl64 (P.fl64 x) = P.fl64 x
  fl32_rel : ∀ x : ℚ, 1 / 2 ^ 126 ≤ |x| → |x| ≤ 2 ^ 127 → |P.fl32 x - x| ≤ |x| / 2 ^ 24
  fl64_rel : ∀ x : ℚ, 1 / 2 ^ 126 ≤ |x| → |x| ≤ 2 ^ 127 → |P.fl64 x - x| ≤ |x| / 2 ^ 53
  sin_abs_le : ∀ x : ℚ, |P.sin x| ≤ 1

/-- What is assumed of the two transcendental ingredients: the macro `PI` is within `2⁻⁵¹` of
`π`, and the library sine of a `double` is within `2⁻⁵¹` of its sine (both hold of a correctly
rounded `double` constant and of a library sine with an error below two units in the last
place). -/
structure Platform.Accurate (P : Platform) : Prop where
  pi_close : |((P.PI : ℚ) : ℝ) - Real.pi| ≤ 1 / 2 ^ 51
  sin_close : ∀ x : ℚ, P.fl64 x = x → |((P.sin x : ℚ) : ℝ) - Real.sin x| ≤ 1 / 2 ^ 51

/-- The sine value the platform computes at index `i` is within `10⁻⁹` of the sine of the exact
angle `2π · ALERT_FREQUENCY_HZ · i / SAMPLE_RATE`. On a sound and accurate platform this holds
at every index of the built-in tone (`sineAccurate_of_accurate`). -/
def SineAccurate (P : Platform) (cfg : Config) (i : Nat) : Prop :=
  |((P.sin (phase P cfg i) : ℚ) : ℝ) -
      Real.sin (2 * Real.pi * (cfg.ALERT_FREQUENCY_HZ : ℝ) * (i : ℝ) / (cfg.SAMPLE_RATE : ℝ))| ≤
    1 / 10 ^ 9

/-! ## Concrete platforms, configurations and surroundings -/

/-- The value of `3.1415926535897932384626433832795` as a `double`. -/
def piDouble : ℚ := 884279719003555 / 281474976710656

/-- A platform with exact arithmetic and a rational stand-in for the sine. -/
def exactPlatform : Platform where
  PI := piDouble
  sin := fun x => 2 * x / (1 + x ^ 2)
  fl32 := id
  fl64 := id

/-- A platform with exact arithmetic whose sine always returns the value of
`cos (π / 882)` to nine decimals, the largest sine the built-in tone takes. -/
def peakPlatform : Platform where
  PI := piDouble
  sin := fun _ => 999993656 / 1000000000
  fl32 := id
  fl64 := id

/-- The built-in tone at full volume. -/
def fullVolume : Config := { builtin with volume := 1 }

/-- The built-in tone with the volume turned to zero. -/
def muted : Config := { builtin with volume := 0 }

/-- The built-in tone with a frequency above the Nyquist limit of 22050 Hz. -/
def aboveNyquist : Config := { builtin with ALERT_FREQUENCY_HZ := 30000 }

/-- A one-minute alert: a valid profile whose product of duration and rate exceeds `int`. -/
def oneMinute : Config := { builtin with ALERT_DURATION_MS := 60000 }

/-- A configuration with a duration of zero: no sample is due. -/
def zeroDuration : Config := { builtin with ALERT_DURATION_MS := 0 }

/-- Surroundings in which the trigger line is held low and every driver call succeeds. -/
def heldLow : Env where
  pinLevel := fun _ => LOW
  driverInstallOk := true
  setPinOk := true
  writeOk := fun _ => true
  writeMicros := fun _ => 11

/-- Surroundings in which the trigger line is low at boot only and high ever after; every
driver call succeeds. -/
def lowAtBoot : Env := { heldLow with pinLevel := fun t => decide (0 < t) }

/-- As `heldLow`, but the write of the left sample of the 1000th frame fails. -/
def failsAtFrame1000 : Env := { heldLow with writeOk := fun n => n != 1998 }

/-- As `heldLow`, but the I2S driver cannot be installed nor its pins set. -/
def driverBroken : Env := { heldLow with driverInstallOk := false, setPinOk := false }

/-! ## Auxiliary definitions for the proofs

The run of the sketch written out as plain data: what each part appends to the trace and how
long it takes. The lemmas below show that the sketch produces exactly this. -/

/-- The body of the `for` loop run `c` times from index `i`. -/
def playCount (P : Platform) (cfg : Config) (env : Env) : Nat → Nat → World → Option World
  | 0, _, w => some w
  | c + 1, i, w =>
    match sampleAt P cfg i with
    | none => none
    | some sample => playCount P cfg env c (i + 1) (i2s_write env sample (i2s_write env sample w))

/-- Each of `amp i, amp (i+1), …` (`c` of them) twice over. -/
def twice (amp : Nat → Int) : Nat → Nat → List Int
  | 0, _ => []
  | c + 1, i => amp i :: amp i :: twice amp c (i + 1)

/-- The sample at index `i`, `0` where the conversion is undefined. -/
def amplitude (P : Platform) (cfg : Config) (i : Nat) : Int := (sampleAt P cfg i).getD 0

/-- Every sample of the configuration is defined. -/
def Total (P : Platform) (cfg : Config) : Prop :=
  ∀ i : Nat, sampleAt P cfg i = some (amplitude P cfg i)

/-- The number of iterations of the `for` loop. -/
def iterations (cfg : Config) : Nat := (numSamples cfg).toNat

/-- The effects of `c` iterations of the `for` loop from index `i`, entered at time `now` after
`nw` earlier `i2s_write` calls. -/
def writeEvents (env : Env) (amp : Nat → Int) : Nat → Nat → Nat → Nat → List (Nat × Event)
  | 0, _, _, _ => []
  | c + 1, i, now, nw =>
    (now, Event.i2sWrite (amp i) (env.writeOk nw)) ::
      (now + env.writeMicros nw, Event.i2sWrite (amp i) (env.writeOk (nw + 1))) ::
        writeEvents env amp c (i + 1) (now + env.writeMicros nw + env.writeMicros (nw + 1))
          (nw + 2)

/-- The time `2 * c` consecutive `i2s_write` calls take, the first being call number `nw`. -/
def blockMicros (env : Env) : Nat → Nat → Nat
  | 0, _ => 0
  | c + 1, nw => env.writeMicros nw + env.writeMicros (nw + 1) + blockMicros env c (nw + 2)

/-- The effects of `setup()`. -/
def setupEvents (env : Env) : List (Nat × Event) :=
  [(0, Event.serialBegin 115200), (0, Event.println SerialMsg.initializingSystem),
    (0, Event.pinModeInputPullup TRIGGER_PIN), (0, Event.println SerialMsg.initializingI2S),
    (0, Event.driverInstall env.driverInstallOk), (0, Event.setPin env.setPinOk),
    (0, Event.println SerialMsg.i2sInitializedSuccessfully),
    (0, Event.println SerialMsg.systemReady)]

/-- The effects of a pass of `loop()` that finds the trigger line low at time `now`. -/
def triggeredPass (P : Platform) (cfg : Config) (env : Env) (now nw : Nat) :
    List (Nat × Event) :=
  [(now, Event.digitalRead TRIGGER_PIN LOW), (now, Event.println SerialMsg.triggerDetected),
    (now, Event.println SerialMsg.playingAlert)] ++
  writeEvents env (amplitude P cfg) (iterations cfg) 0 now nw ++
  [(now + blockMicros env (iterations cfg) nw, Event.println SerialMsg.alertComplete),
    (now + blockMicros env (iterations cfg) nw, Event.delay cfg.DEBOUNCE_TIME_MS),
    (now + blockMicros env (iterations cfg) nw + 1000 * cfg.DEBOUNCE_TIME_MS, Event.delay 10)]

/-- The effects of a pass of `loop()` that finds the trigger line high at time `now`. -/
def idlePass (now : Nat) : List (Nat × Event) :=
  [(now, Event.digitalRead TRIGGER_PIN HIGH), (now, Event.delay 10)]

/-- A state with `pre` put in front of its trace. -/
def World.prepend (pre : List (Nat × Event)) (w : World) : World :=
  { w with trace := pre ++ w.trace }

/-- One pass of `loop()` when every sample is defined. -/
def stepT (P : Platform) (cfg : Config) (env : Env) (w : World) : World :=
  if env.pinLevel w.now = LOW then
    ⟨w.now + blockMicros env (iterations cfg) w.nWrites + 1000 * cfg.DEBOUNCE_TIME_MS + 1000 * 10,
      w.nWrites + 2 * iterations cfg, w.trace ++ triggeredPass P cfg env w.now w.nWrites⟩
  else ⟨w.now + 1000 * 10, w.nWrites, w.trace ++ idlePass w.now⟩

/-- The state after `n` passes that follow a `setup()` without effects. -/
def passes (P : Platform) (cfg : Config) (env : Env) : Nat → World
  | 0 => ⟨0, 0, []⟩
  | n + 1 => stepT P cfg env (passes P cfg env n)

/-! ## Truncation toward zero -/

theorem truncToZero_of_nonneg {x : ℚ} (h : 0 ≤ x) : truncToZero x = ⌊x⌋ := by
  simp [truncToZero, h]

theorem truncToZero_of_neg {x : ℚ} (h : x < 0) : truncToZero x = ⌈x⌉ := by
  simp [truncToZero, not_le.mpr h]

theorem truncToZero_abs_le (x : ℚ) : |(truncToZero x : ℚ)| ≤ |x| := by
  rcases le_or_lt 0 x with h | h
  · rw [truncToZero_of_nonneg h, abs_of_nonneg h,
      abs_of_nonneg (by exact_mod_cast Int.floor_nonneg.mpr h)]
    exact Int.floor_le x
  · have hc : (⌈x⌉ : ℚ) ≤ 0 := by exact_mod_cast Int.ceil_le.mpr (by simpa using h.le)
    rw [truncToZero_of_neg h, abs_of_neg h, abs_of_nonpos hc]
    linarith [Int.le_ceil x]

theorem abs_lt_truncToZero_add_one (x : ℚ) : |x| < |(truncToZero x : ℚ)| + 1 := by
  rcases le_or_lt 0 x with h | h
  · rw [truncToZero_of_nonneg h, abs_of_nonneg h,
      abs_of_nonneg (by exact_mod_cast Int.floor_nonneg.mpr h)]
    exact Int.lt_floor_add_one x
  · have hc : (⌈x⌉ : ℚ) ≤ 0 := by exact_mod_cast Int.ceil_le.mpr (by simpa using h.le)
    rw [truncToZero_of_neg h, abs_of_neg h, abs_of_nonpos hc]
    linarith [Int.ceil_lt_add_one x]

theorem truncToZero_mul_nonneg (x : ℚ) : 0 ≤ (truncToZero x : ℚ) * x := by
  rcases le_or_lt 0 x with h | h
  · rw [truncToZero_of_nonneg h]
    exact mul_nonneg (by exact_mod_cast Int.floor_nonneg.mpr h) h
  · have hc : (⌈x⌉ : ℚ) ≤ 0 := by exact_mod_cast Int.ceil_le.mpr (by simpa using h.le)
    rw [truncToZero_of_neg h]
    exact mul_nonneg_of_nonpos_of_nonpos hc h.le

theorem truncToZero_eq_of_mem {x : ℚ} {n : ℤ} (h0 : 0 ≤ n) (h1 : (n : ℚ) ≤ x)
    (h2 : x < n + 1) : truncToZero x = n := by
  have hx : (0 : ℚ) ≤ x := le_trans (by exact_mod_cast h0) h1
  rw [truncToZero_of_nonneg hx]
  exact Int.floor_eq_iff.mpr ⟨h1, h2⟩

theorem truncToZero_eq_neg_of_mem {x : ℚ} {n : ℤ} (h0 : 0 < n) (h1 : x ≤ -(n : ℚ))
    (h2 : -(n : ℚ) - 1 < x) : truncToZero x = -n := by
  have hn : (0 : ℚ) < n := by exact_mod_cast h0
  have hx : x < 0 := by linarith
  rw [truncToZero_of_neg hx]
  exact Int.ceil_eq_iff.mpr ⟨by push_cast; linarith, by push_cast; linarith⟩

/-- A value of magnitude at most `b ≤ 32767` converts to an `int16_t` of magnitude at most
`b`. -/
theorem toInt16_of_abs_le {x b : ℚ} (hx : |x| ≤ b) (hb : b ≤ 32767) :
    toInt16 x = some (truncToZero x) ∧ |(truncToZero x : ℚ)| ≤ b ∧
      -32767 ≤ truncToZero x ∧ truncToZero x ≤ 32767 := by
  have h1 : |(truncToZero x : ℚ)| ≤ b := le_trans (truncToZero_abs_le x) hx
  have h2 : |(truncToZero x : ℚ)| ≤ 32767 := le_trans h1 hb
  have h3 := abs_le.mp h2
  have h4 : (-32767 : ℤ) ≤ truncToZero x := by exact_mod_cast h3.1
  have h5 : truncToZero x ≤ (32767 : ℤ) := by exact_mod_cast h3.2
  refine ⟨?_, h1, h4, h5⟩
  unfold toInt16
  simp only
  rw [if_pos ⟨by omega, h5⟩]

/-! ## Consequences of the assumptions on rounding -/

theorem Platform.Sound.fl32_zero {P : Platform} (hP : P.Sound) : P.fl32 0 = 0 := by
  simpa using hP.fl32_int 0 (by norm_num)

theorem Platform.Sound.fl32_one {P : Platform} (hP : P.Sound) : P.fl32 1 = 1 := by
  simpa using hP.fl32_int 1 (by norm_num)

theorem Platform.Sound.fl64_zero {P : Platform} (hP : P.Sound) : P.fl64 0 = 0 := by
  have := hP.fl64_fl32 0
  rwa [hP.fl32_zero] at this

theorem Platform.Sound.fl64_one {P : Platform} (hP : P.Sound) : P.fl64 1 = 1 := by
  have := hP.fl64_fl32 1
  rwa [hP.fl32_one] at this

theorem volumeFloat_nonneg {P : Platform} (hP : P.Sound) {cfg : Config}
    (h0 : 0 ≤ cfg.volume) : 0 ≤ volumeFloat P cfg := by
  have h := hP.fl32_mono (hP.fl64_mono h0)
  rwa [hP.fl64_zero, hP.fl32_zero] at h

theorem volumeFloat_le_one {P : Platform} (hP : P.Sound) {cfg : Config}
    (h1 : cfg.volume ≤ 1) : volumeFloat P cfg ≤ 1 := by
  have h := hP.fl32_mono (hP.fl64_mono h1)
  rwa [hP.fl64_one, hP.fl32_one] at h

theorem amplitudeScale_nonneg {P : Platform} (hP : P.Sound) {cfg : Config}
    (h0 : 0 ≤ cfg.volume) : 0 ≤ amplitudeScale P cfg := by
  have hv := volumeFloat_nonneg hP h0
  have := hP.fl32_mono (mul_nonneg hv (by norm_num : (0 : ℚ) ≤ 32767))
  rwa [hP.fl32_zero] at this

theorem amplitudeScale_le {P : Platform} (hP : P.Sound) {cfg : Config}
    (h1 : cfg.volume ≤ 1) : amplitudeScale P cfg ≤ 32767 := by
  have hv := volumeFloat_le_one hP h1
  have h := hP.fl32_mono (show volumeFloat P cfg * 32767 ≤ ((32767 : ℤ) : ℚ) by
    push_cast; linarith)
  rwa [hP.fl32_int 32767 (by norm_num)] at h

theorem scaled_abs_le {P : Platform} (hP : P.Sound) {cfg : Config} (h0 : 0 ≤ cfg.volume)
    {s : ℚ} (hs : |s| ≤ 1) : |scaled P cfg s| ≤ amplitudeScale P cfg := by
  have hA := amplitudeScale_nonneg hP h0
  have hs' := abs_le.mp hs
  have hup : P.fl64 (amplitudeScale P cfg) = amplitudeScale P cfg := hP.fl64_fl32 _
  have hlo : P.fl64 (-amplitudeScale P cfg) = -amplitudeScale P cfg := by
    unfold amplitudeScale
    rw [← hP.fl32_neg, hP.fl64_fl32]
  rw [abs_le]
  constructor
  · rw [← hlo]
    exact hP.fl64_mono (by nlinarith)
  · rw [← hup]
    exact hP.fl64_mono (by nlinarith)

theorem builtin_scale_bounds {P : Platform} (hP : P.Sound) (cfg : Config)
    (hv : cfg.volume = 7 / 10) :
    22936 + 89 / 100 ≤ amplitudeScale P cfg ∧ amplitudeScale P cfg ≤ 22936 + 91 / 100 := by
  have h0 := abs_le.mp (hP.fl64_rel (7 / 10) (by norm_num [abs_of_pos])
    (by norm_num [abs_of_pos]))
  rw [abs_of_pos (by norm_num : (0 : ℚ) < 7 / 10)] at h0
  have hpos0 : 0 < P.fl64 (7 / 10) := by norm_num at h0; linarith [h0.1]
  have h1 := abs_le.mp (hP.fl32_rel (P.fl64 (7 / 10))
    (by rw [abs_of_pos hpos0]; norm_num at h0 ⊢; linarith [h0.1])
    (by rw [abs_of_pos hpos0]; norm_num at h0 ⊢; linarith [h0.2]))
  rw [abs_of_pos hpos0] at h1
  have hpos : 0 < P.fl32 (P.fl64 (7 / 10)) * 32767 := by
    norm_num at h0 h1; nlinarith [h0.1, h1.1]
  have h2 := abs_le.mp (hP.fl32_rel (P.fl32 (P.fl64 (7 / 10)) * 32767)
    (by rw [abs_of_pos hpos]; norm_num at h0 h1 ⊢; linarith [h0.1, h1.1])
    (by rw [abs_of_pos hpos]; norm_num at h0 h1 ⊢; linarith [h0.2, h1.2]))
  rw [abs_of_pos hpos] at h2
  unfold amplitudeScale volumeFloat
  rw [hv]
  norm_num at h0 h1 h2 ⊢
  constructor <;> linarith [h0.1, h0.2, h1.1, h1.2, h2.1, h2.2]

theorem numSamples_of_le {cfg : Config} (hd : 0 ≤ cfg.ALERT_DURATION_MS)
    (hr : 0 ≤ cfg.SAMPLE_RATE) (hle : cfg.ALERT_DURATION_MS * cfg.SAMPLE_RATE ≤ 2147483647) :
    numSamples cfg = cfg.ALERT_DURATION_MS * cfg.SAMPLE_RATE / 1000 := by
  have h0 : 0 ≤ cfg.ALERT_DURATION_MS * cfg.SAMPLE_RATE := mul_nonneg hd hr
  have hw : wrapInt32 (cfg.ALERT_DURATION_MS * cfg.SAMPLE_RATE) =
      cfg.ALERT_DURATION_MS * cfg.SAMPLE_RATE := by
    unfold wrapInt32
    rw [Int.emod_eq_of_lt (by omega) (by omega)]
    omega
  unfold numSamples
  rw [hw, Int.tdiv_eq_ediv h0 (by norm_num)]

theorem numSamples_builtin : numSamples builtin = 88200 := by decide

theorem numSamples_aboveNyquist : numSamples aboveNyquist = 88200 := by decide

/-- C2 (as stated, refuted): a one-minute alert at 44100 Hz is a valid profile, yet the `int`
product `60000 * 44100` wraps and the computed sample count is `-1648967`, not the quotient
`2646000`. -/
theorem numSamples_oneMinute_wraps :
    0 < oneMinute.ALERT_DURATION_MS ∧ 0 < oneMinute.SAMPLE_RATE ∧
      numSamples oneMinute = -1648967 ∧
      ⌊((oneMinute.ALERT_DURATION_MS * oneMinute.SAMPLE_RATE : ℤ) : ℚ) / 1000⌋ = 2646000 := by
  refine ⟨by decide, by decide, by decide, ?_⟩
  have : ((oneMinute.ALERT_DURATION_MS * oneMinute.SAMPLE_RATE : ℤ) : ℚ) = 2646000000 := by
    norm_num [oneMinute, builtin]
  rw [this]
  norm_num

/-- C2 (amended): for a positive duration and rate whose product fits in `int`, the sample count
computed by `playAlert` is the truncating quotient `⌊durationMs * sampleRateHz / 1000⌋`; for the
built-in 2000 ms at 44100 Hz it is 88200. -/
theorem numSamples_eq_floor (cfg : Config) (hd : 0 < cfg.ALERT_DURATION_MS)
    (hr : 0 < cfg.SAMPLE_RATE) (hle : cfg.ALERT_DURATION_MS * cfg.SAMPLE_RATE ≤ 2147483647) :
    numSamples cfg = ⌊((cfg.ALERT_DURATION_MS * cfg.SAMPLE_RATE : ℤ) : ℚ) / 1000⌋ ∧
      numSamples builtin = 88200 := by
  refine ⟨?_, numSamples_builtin⟩
  rw [numSamples_of_le hd.le hr.le hle]
  have := Rat.floor_intCast_div_natCast (cfg.ALERT_DURATION_MS * cfg.SAMPLE_RATE) 1000
  simpa using this.symm

/-- C2 (amended) at the built-in profile. -/
theorem numSamples_eq_floor_witness :
    numSamples builtin = ⌊((builtin.ALERT_DURATION_MS * builtin.SAMPLE_RATE : ℤ) : ℚ) / 1000⌋ ∧
      numSamples builtin = 88200 :=
  numSamples_eq_floor builtin (by decide) (by decide) (by decide)

/-! ## The `for` loop -/

theorem playLoop_eq_playCount (P : Platform) (cfg : Config) (env : Env) (n : Int) :
    ∀ (c i : Nat) (w : World), (n - i).toNat = c →
      playLoop P cfg env n i w = playCount P cfg env c i w := by
  intro c
  induction c with
  | zero =>
    intro i w h
    rw [playLoop, if_neg (by omega)]
    rfl
  | succ c ih =>
    intro i w h
    rw [playLoop, if_pos (by omega)]
    simp only [playCount]
    cases hs : sampleAt P cfg i with
    | none => rfl
    | some s =>
      simp only
      exact ih (i + 1) _ (by push_cast; omega)

theorem playCount_eq {P : Platform} {cfg : Config} (hT : Total P cfg) (env : Env) :
    ∀ (c i : Nat) (w : World),
      playCount P cfg env c i w =
        some ⟨w.now + blockMicros env c w.nWrites, w.nWrites + 2 * c,
          w.trace ++ writeEvents env (amplitude P cfg) c i w.now w.nWrites⟩ := by
  intro c
  induction c with
  | zero => intro i w; simp [playCount, blockMicros, writeEvents]
  | succ c ih =>
    intro i w
    simp only [playCount, hT i]
    rw [ih]
    simp only [i2s_write, blockMicros, writeEvents, List.append_assoc, List.singleton_append,
      Option.some.injEq, World.mk.injEq]
    have e : w.nWrites + 1 + 1 = w.nWrites + 2 := rfl
    rw [e]
    refine ⟨by omega, by omega, by simp⟩

theorem playAlert_eq {P : Platform} {cfg : Config} (hT : Total P cfg) (env : Env) (w : World) :
    playAlert P cfg env w =
      some ⟨w.now + blockMicros env (iterations cfg) w.nWrites, w.nWrites + 2 * iterations cfg,
        w.trace ++ ((w.now, Event.println SerialMsg.playingAlert) ::
          writeEvents env (amplitude P cfg) (iterations cfg) 0 w.now w.nWrites ++
          [(w.now + blockMicros env (iterations cfg) w.nWrites,
            Event.println SerialMsg.alertComplete)])⟩ := by
  unfold playAlert
  simp only
  rw [playLoop_eq_playCount P cfg env (numSamples cfg) (iterations cfg) 0 _ (by simp [iterations]),
    playCount_eq hT]
  simp [Serial_println, World.emit]

theorem loop_low {P : Platform} {cfg : Config} (hT : Total P cfg) (env : Env) (w : World)
    (h : env.pinLevel w.now = LOW) :
    loop P cfg env w =
      some ⟨w.now + blockMicros env (iterations cfg) w.nWrites + 1000 * cfg.DEBOUNCE_TIME_MS +
          1000 * 10, w.nWrites + 2 * iterations cfg,
        w.trace ++ triggeredPass P cfg env w.now w.nWrites⟩ := by
  unfold loop
  simp only [digitalRead, h, if_true]
  rw [playAlert_eq hT]
  simp [Serial_println, World.emit, delay, triggeredPass]

theorem loop_high (P : Platform) (cfg : Config) (env : Env) (w : World)
    (h : env.pinLevel w.now = HIGH) :
    loop P cfg env w = some ⟨w.now + 1000 * 10, w.nWrites, w.trace ++ idlePass w.now⟩ := by
  unfold loop
  simp [digitalRead, h, HIGH, LOW, World.emit, delay, idlePass]

theorem setup_eq (env : Env) :
    setup env World.boot = ⟨0, 0, setupEvents env⟩ := by
  simp [setup, initI2S, Serial_println, World.emit, World.boot, setupEvents]

/-! ## Reading a trace: lemmas -/

theorem writeAttempts_append (l₁ l₂ : List (Nat × Event)) :
    writeAttempts (l₁ ++ l₂) = writeAttempts l₁ ++ writeAttempts l₂ := by
  induction l₁ with
  | nil => rfl
  | cons h t ih =>
    obtain ⟨t0, e⟩ := h
    cases e <;> simp [writeAttempts, ih]

theorem accepted_append (l₁ l₂ : List (Nat × Event)) :
    accepted (l₁ ++ l₂) = accepted l₁ ++ accepted l₂ := by
  induction l₁ with
  | nil => rfl
  | cons h t ih =>
    obtain ⟨t0, e⟩ := h
    cases e with
    | i2sWrite s ok => cases ok <;> simp [accepted, ih]
    | _ => simp [accepted, ih]

theorem playTimes_append (l₁ l₂ : List (Nat × Event)) :
    playTimes (l₁ ++ l₂) = playTimes l₁ ++ playTimes l₂ := by
  induction l₁ with
  | nil => rfl
  | cons h t ih =>
    obtain ⟨t0, e⟩ := h
    cases e with
    | println m => cases m <;> simp [playTimes, ih]
    | _ => simp [playTimes, ih]

theorem pollTimes_append (l₁ l₂ : List (Nat × Event)) :
    pollTimes (l₁ ++ l₂) = pollTimes l₁ ++ pollTimes l₂ := by
  induction l₁ with
  | nil => rfl
  | cons h t ih =>
    obtain ⟨t0, e⟩ := h
    cases e <;> simp [pollTimes, ih]

theorem writeAttempts_writeEvents (env : Env) (amp : Nat → Int) :
    ∀ c i now nw, writeAttempts (writeEvents env amp c i now nw) = twice amp c i := by
  intro c
  induction c with
  | zero => intros; rfl
  | succ c ih => intro i now nw; simp [writeEvents, writeAttempts, twice, ih]

theorem accepted_writeEvents (env : Env) (hok : ∀ n, env.writeOk n = true) (amp : Nat → Int) :
    ∀ c i now nw, accepted (writeEvents env amp c i now nw) = twice amp c i := by
  intro c
  induction c with
  | zero => intros; rfl
  | succ c ih => intro i now nw; simp [writeEvents, accepted, twice, ih, hok]

theorem playTimes_writeEvents (env : Env) (amp : Nat → Int) :
    ∀ c i now nw, playTimes (writeEvents env amp c i now nw) = [] := by
  intro c
  induction c with
  | zero => intros; rfl
  | succ c ih => intro i now nw; simp [writeEvents, playTimes, ih]

theorem pollTimes_writeEvents (env : Env) (amp : Nat → Int) :
    ∀ c i now nw, pollTimes (writeEvents env amp c i now nw) = [] := by
  intro c
  induction c with
  | zero => intros; rfl
  | succ c ih => intro i now nw; simp [writeEvents, pollTimes, ih]

theorem length_twice (amp : Nat → Int) : ∀ c i, (twice amp c i).length = 2 * c := by
  intro c
  induction c with
  | zero => intros; rfl
  | succ c ih => intro i; simp [twice, ih]; omega

theorem frames_twice (amp : Nat → Int) :
    ∀ c i, frames (twice amp c i) = (List.range' i c).map (fun k => (amp k, amp k)) := by
  intro c
  induction c with
  | zero => intros; rfl
  | succ c ih => intro i; simp [twice, frames, ih, List.range'_succ]

theorem writeEvents_congr {env₁ env₂ : Env} (h₁ : env₁.writeOk = env₂.writeOk)
    (h₂ : env₁.writeMicros = env₂.writeMicros) (amp : Nat → Int) :
    ∀ c i now nw, writeEvents env₁ amp c i now nw = writeEvents env₂ amp c i now nw := by
  intro c
  induction c with
  | zero => intros; rfl
  | succ c ih => intro i now nw; simp [writeEvents, ih, h₁, h₂]

theorem blockMicros_congr {env₁ env₂ : Env} (h₂ : env₁.writeMicros = env₂.writeMicros) :
    ∀ c nw, blockMicros env₁ c nw = blockMicros env₂ c nw := by
  intro c
  induction c with
  | zero => intros; rfl
  | succ c ih => intro nw; simp [blockMicros, ih, h₂]

theorem pollTimes_triggeredPass (P : Platform) (cfg : Config) (env : Env) (now nw : Nat) :
    pollTimes (triggeredPass P cfg env now nw) = [now] := by
  simp [triggeredPass, pollTimes_append, pollTimes_writeEvents, pollTimes]

theorem playTimes_triggeredPass (P : Platform) (cfg : Config) (env : Env) (now nw : Nat) :
    playTimes (triggeredPass P cfg env now nw) = [now] := by
  simp [triggeredPass, playTimes_append, playTimes_writeEvents, playTimes]

theorem writeAttempts_triggeredPass (P : Platform) (cfg : Config) (env : Env) (now nw : Nat) :
    writeAttempts (triggeredPass P cfg env now nw) =
      twice (amplitude P cfg) (iterations cfg) 0 := by
  simp [triggeredPass, writeAttempts_append, writeAttempts_writeEvents, writeAttempts]

/-! ## Totality of the sample computation -/

theorem sampleAt_eq {P : Platform} (hP : P.Sound) {cfg : Config} (h0 : 0 ≤ cfg.volume)
    (h1 : cfg.volume ≤ 1) (i : Nat) :
    sampleAt P cfg i = some (truncToZero (waveValue P cfg i)) :=
  (toInt16_of_abs_le (scaled_abs_le hP h0 (hP.sin_abs_le _)) (amplitudeScale_le hP h1)).1

theorem total_of_sound {P : Platform} (hP : P.Sound) {cfg : Config} (h0 : 0 ≤ cfg.volume)
    (h1 : cfg.volume ≤ 1) : Total P cfg := by
  intro i
  simp [amplitude, sampleAt_eq hP h0 h1 i]

theorem exactPlatform_sound : exactPlatform.Sound where
  fl32_mono := monotone_id
  fl64_mono := monotone_id
  fl32_int := fun _ _ => rfl
  fl32_neg := fun _ => rfl
  fl64_fl32 := fun _ => rfl
  fl64_idem := fun _ => rfl
  fl32_rel := fun x _ _ => by
    show |x - x| ≤ _
    rw [sub_self, abs_zero]
    exact div_nonneg (abs_nonneg x) (by positivity)
  fl64_rel := fun x _ _ => by
    show |x - x| ≤ _
    rw [sub_self, abs_zero]
    exact div_nonneg (abs_nonneg x) (by positivity)
  sin_abs_le := fun x => by
    simp only [exactPlatform]
    have hpos : (0 : ℚ) < 1 + x ^ 2 := by positivity
    rw [abs_le]
    constructor
    · rw [le_div_iff₀ hpos]; nlinarith [sq_nonneg (x + 1)]
    · rw [div_le_iff₀ hpos]; nlinarith [sq_nonneg (x - 1)]

theorem peakPlatform_sound : peakPlatform.Sound where
  fl32_mono := monotone_id
  fl64_mono := monotone_id
  fl32_int := fun _ _ => rfl
  fl32_neg := fun _ => rfl
  fl64_fl32 := fun _ => rfl
  fl64_idem := fun _ => rfl
  fl32_rel := fun x _ _ => by
    show |x - x| ≤ _
    rw [sub_self, abs_zero]
    exact div_nonneg (abs_nonneg x) (by positivity)
  fl64_rel := fun x _ _ => by
    show |x - x| ≤ _
    rw [sub_self, abs_zero]
    exact div_nonneg (abs_nonneg x) (by positivity)
  sin_abs_le := fun x => by
    simp only [peakPlatform]
    rw [abs_le]
    constructor <;> norm_num

/-! ## The run as a total function -/

theorem loop_eq_stepT {P : Platform} {cfg : Config} (hT : Total P cfg) (env : Env) (w : World) :
    loop P cfg env w = some (stepT P cfg env w) := by
  unfold stepT
  by_cases h : env.pinLevel w.now = LOW
  · rw [if_pos h, loop_low hT env w h]
  · rw [if_neg h, loop_high P cfg env w (by simpa [LOW, HIGH] using h)]

theorem stepT_prepend (P : Platform) (cfg : Config) (env : Env) (pre : List (Nat × Event))
    (w : World) : stepT P cfg env (w.prepend pre) = (stepT P cfg env w).prepend pre := by
  unfold stepT World.prepend
  by_cases h : env.pinLevel w.now = LOW <;> simp [h]

theorem run_eq {P : Platform} {cfg : Config} (hT : Total P cfg) (env : Env) (n : Nat) :
    run P cfg env n = some ((passes P cfg env n).prepend (setupEvents env)) := by
  induction n with
  | zero => simp [run, setup_eq, passes, World.prepend]
  | succ n ih =>
    simp only [run, ih, Option.some_bind, passes]
    rw [loop_eq_stepT hT, stepT_prepend]

/-! ## Passes of the poll loop -/

theorem pollTimes_setupEvents (env : Env) : pollTimes (setupEvents env) = [] := rfl

theorem playTimes_setupEvents (env : Env) : playTimes (setupEvents env) = [] := rfl

theorem writeAttempts_setupEvents (env : Env) : writeAttempts (setupEvents env) = [] := rfl

theorem pollTimes_stepT (P : Platform) (cfg : Config) (env : Env) (w : World) :
    pollTimes (stepT P cfg env w).trace = pollTimes w.trace ++ [w.now] := by
  unfold stepT
  by_cases h : env.pinLevel w.now = LOW
  · simp [h, pollTimes_append, pollTimes_triggeredPass]
  · simp [h, pollTimes_append, idlePass, pollTimes]

theorem playTimes_stepT (P : Platform) (cfg : Config) (env : Env) (w : World) :
    playTimes (stepT P cfg env w).trace =
      playTimes w.trace ++ (if env.pinLevel w.now = LOW then [w.now] else []) := by
  unfold stepT
  by_cases h : env.pinLevel w.now = LOW
  · simp [h, playTimes_append, playTimes_triggeredPass]
  · simp [h, playTimes_append, idlePass, playTimes]

theorem writeAttempts_stepT (P : Platform) (cfg : Config) (env : Env) (w : World) :
    writeAttempts (stepT P cfg env w).trace =
      writeAttempts w.trace ++
        (if env.pinLevel w.now = LOW then twice (amplitude P cfg) (iterations cfg) 0 else []) := by
  unfold stepT
  by_cases h : env.pinLevel w.now = LOW
  · simp [h, writeAttempts_append, writeAttempts_triggeredPass]
  · simp [h, writeAttempts_append, idlePass, writeAttempts]

theorem now_stepT_ge (P : Platform) (cfg : Config) (env : Env) (w : World) :
    w.now + 1000 * 10 ≤ (stepT P cfg env w).now ∧
      (env.pinLevel w.now = LOW →
        w.now + 1000 * cfg.DEBOUNCE_TIME_MS + 1000 * 10 ≤ (stepT P cfg env w).now) := by
  unfold stepT
  by_cases h : env.pinLevel w.now = LOW
  · simp only [h, if_true]
    constructor
    · omega
    · intro _; omega
  · simp only [h, if_false]
    exact ⟨le_refl _, fun hl => hl.elim⟩

theorem stepT_congr (P : Platform) (cfg : Config) {env₁ env₂ : Env}
    (h₁ : env₁.writeOk = env₂.writeOk) (h₂ : env₁.writeMicros = env₂.writeMicros) (w : World)
    (h₃ : env₁.pinLevel w.now = env₂.pinLevel w.now) :
    stepT P cfg env₁ w = stepT P cfg env₂ w := by
  unfold stepT triggeredPass
  rw [h₃, blockMicros_congr h₂, writeEvents_congr h₁ h₂]

theorem length_pollTimes_passes (P : Platform) (cfg : Config) (env : Env) (n : Nat) :
    (pollTimes (passes P cfg env n).trace).length = n := by
  induction n with
  | zero => rfl
  | succ n ih => simp [passes, pollTimes_stepT, ih]

theorem playTimes_passes (P : Platform) (cfg : Config) (env : Env) (n : Nat) :
    playTimes (passes P cfg env n).trace =
      (pollTimes (passes P cfg env n).trace).filter (fun t => decide (env.pinLevel t = LOW)) := by
  induction n with
  | zero => rfl
  | succ n ih =>
    simp only [passes, pollTimes_stepT, playTimes_stepT, ih, List.filter_append]
    by_cases h : env.pinLevel (passes P cfg env n).now = LOW <;> simp [h]

theorem length_writeAttempts_passes (P : Platform) (cfg : Config) (env : Env) (n : Nat) :
    (writeAttempts (passes P cfg env n).trace).length =
      2 * iterations cfg * (playTimes (passes P cfg env n).trace).length := by
  induction n with
  | zero => rfl
  | succ n ih =>
    simp only [passes, writeAttempts_stepT, playTimes_stepT, List.length_append, ih]
    by_cases h : env.pinLevel (passes P cfg env n).now = LOW
    · simp [h, length_twice]; ring
    · simp [h]

theorem polls_before_now (P : Platform) (cfg : Config) (env : Env) (n : Nat) :
    ∀ t ∈ pollTimes (passes P cfg env n).trace,
      t + 1000 * 10 ≤ (passes P cfg env n).now ∧
        (env.pinLevel t = LOW →
          t + 1000 * cfg.DEBOUNCE_TIME_MS + 1000 * 10 ≤ (passes P cfg env n).now) := by
  induction n with
  | zero => intro t ht; simp [passes, pollTimes] at ht
  | succ n ih =>
    intro t ht
    have hge := now_stepT_ge P cfg env (passes P cfg env n)
    simp only [passes, pollTimes_stepT, List.mem_append, List.mem_singleton] at ht ⊢
    rcases ht with ht | rfl
    · have := ih t ht
      exact ⟨by omega, fun h => by have := this.2 h; omega⟩
    · exact hge

theorem pairwise_polls (P : Platform) (cfg : Config) (env : Env) (n : Nat) :
    (pollTimes (passes P cfg env n).trace).Pairwise (fun t t' =>
      t + 1000 * 10 ≤ t' ∧
        (env.pinLevel t = LOW → t + 1000 * cfg.DEBOUNCE_TIME_MS + 1000 * 10 ≤ t')) := by
  induction n with
  | zero => simp [passes, pollTimes]
  | succ n ih =>
    simp only [passes, pollTimes_stepT]
    rw [List.pairwise_append]
    refine ⟨ih, List.pairwise_singleton _ _, ?_⟩
    intro t ht t' ht'
    rw [List.mem_singleton] at ht'
    subst ht'
    exact polls_before_now P cfg env n t ht

theorem passes_congr (P : Platform) (cfg : Config) (env₁ env₂ : Env)
    (h₁ : env₁.writeOk = env₂.writeOk) (h₂ : env₁.writeMicros = env₂.writeMicros) (n : Nat)
    (h₃ : ∀ t ∈ pollTimes (passes P cfg env₁ n).trace, env₂.pinLevel t = env₁.pinLevel t) :
    passes P cfg env₂ n = passes P cfg env₁ n := by
  induction n with
  | zero => rfl
  | succ n ih =>
    simp only [passes, pollTimes_stepT, List.mem_append, List.mem_singleton] at h₃ ⊢
    rw [ih (fun t ht => h₃ t (Or.inl ht))]
    exact (stepT_congr P cfg h₁ h₂ _ (h₃ _ (Or.inr rfl)).symm).symm

/-! ## The playback -/

theorem iterations_builtin : iterations builtin = 88200 := by
  simp [iterations, numSamples_builtin]

theorem playAlert_attempts (env : Env) (amp : Nat → Int) (c now nw t : Nat) :
    writeAttempts ((now, Event.println SerialMsg.playingAlert) ::
      writeEvents env amp c 0 now nw ++ [(t, Event.println SerialMsg.alertComplete)]) =
      twice amp c 0 := by
  simp [writeAttempts_append, writeAttempts, writeAttempts_writeEvents]

theorem playAlert_accepted (env : Env) (hok : ∀ n, env.writeOk n = true) (amp : Nat → Int)
    (c now nw t : Nat) :
    accepted ((now, Event.println SerialMsg.playingAlert) ::
      writeEvents env amp c 0 now nw ++ [(t, Event.println SerialMsg.alertComplete)]) =
      twice amp c 0 := by
  simp [accepted_append, accepted, accepted_writeEvents env hok]

/-- C1: with the built-in profile and a sink that accepts every write, one call of `playAlert`
returns, and the samples it hands to the sink (176400 of them, all accepted) are exactly 88200
stereo frames; the `k`-th frame carries, in both channels, the sample computed for index `k`,
for `k = 0, 1, …, 88199` in this order. -/
theorem playAlert_writes_88200_frames (P : Platform) (hP : P.Sound) (env : Env)
    (hok : ∀ n, env.writeOk n = true) (w : World) :
    ∃ w' evs, playAlert P builtin env w = some w' ∧ w'.trace = w.trace ++ evs ∧
      writeAttempts evs = accepted evs ∧ (accepted evs).length = 176400 ∧
      (frames (accepted evs)).length = 88200 ∧
      frames (accepted evs) =
        (List.range 88200).map (fun k => (amplitude P builtin k, amplitude P builtin k)) ∧
      ∀ k, k < 88200 → sampleAt P builtin k = some (amplitude P builtin k) := by
  have hT : Total P builtin := total_of_sound hP (by norm_num [builtin]) (by norm_num [builtin])
  refine ⟨_, _, playAlert_eq hT env w, rfl, ?_, ?_, ?_, ?_, fun k _ => hT k⟩
  · rw [playAlert_attempts, playAlert_accepted env hok]
  · rw [playAlert_accepted env hok, length_twice, iterations_builtin]
  · rw [playAlert_accepted env hok, frames_twice, iterations_builtin, List.length_map,
      List.length_range']
  · rw [playAlert_accepted env hok, frames_twice, iterations_builtin, List.range_eq_range']

/-- C1 on the exact-arithmetic platform, with a sink that accepts every write, from the state
at boot. -/
theorem playAlert_writes_88200_frames_witness :
    ∃ w' evs, playAlert exactPlatform builtin heldLow World.boot = some w' ∧
      w'.trace = World.boot.trace ++ evs ∧
      writeAttempts evs = accepted evs ∧ (accepted evs).length = 176400 ∧
      (frames (accepted evs)).length = 88200 ∧
      frames (accepted evs) =
        (List.range 88200).map
          (fun k => (amplitude exactPlatform builtin k, amplitude exactPlatform builtin k)) ∧
      ∀ k, k < 88200 → sampleAt exactPlatform builtin k = some (amplitude exactPlatform builtin k) :=
  playAlert_writes_88200_frames exactPlatform exactPlatform_sound heldLow (fun _ => rfl) World.boot

/-- C5 (as stated, refuted): the write of the 1000th frame fails (call number 1998), yet the
playback does not stop there: `playAlert` goes on to make all 176400 calls of `i2s_write`. -/
theorem playAlert_continues_after_failed_write :
    failsAtFrame1000.writeOk 1998 = false ∧
      ∃ w', playAlert exactPlatform builtin failsAtFrame1000 World.boot = some w' ∧
        w'.nWrites = 176400 ∧ (writeAttempts w'.trace).length = 176400 := by
  have hT : Total exactPlatform builtin :=
    total_of_sound exactPlatform_sound (by norm_num [builtin]) (by norm_num [builtin])
  refine ⟨by decide, _, playAlert_eq hT _ _, ?_, ?_⟩
  · show World.boot.nWrites + 2 * iterations builtin = 176400
    rw [iterations_builtin]
    rfl
  · show (writeAttempts (World.boot.trace ++ _)).length = 176400
    rw [writeAttempts_append, playAlert_attempts, List.length_append, length_twice,
      iterations_builtin]
    rfl

/-- C5 (amended): the status of `i2s_write` is discarded, so a failing write stops nothing:
whatever writes fail, `playAlert` attempts both writes of every one of its `num_samples` frames
in order and returns; in a pass of `loop()` that found the trigger low, the return is followed
by the quiet delay and the 10 ms delay as after any playback. -/
theorem playAlert_ignores_write_status (P : Platform) (hP : P.Sound) (cfg : Config)
    (h0 : 0 ≤ cfg.volume) (h1 : cfg.volume ≤ 1) (env : Env) (w : World) :
    (∃ w' evs, playAlert P cfg env w = some w' ∧ w'.trace = w.trace ++ evs ∧
      w'.nWrites = w.nWrites + 2 * iterations cfg ∧
      (writeAttempts evs).length = 2 * iterations cfg ∧
      frames (writeAttempts evs) =
        (List.range (iterations cfg)).map (fun k => (amplitude P cfg k, amplitude P cfg k))) ∧
    (env.pinLevel w.now = LOW →
      ∃ w'' evs t, loop P cfg env w = some w'' ∧
        w''.trace = w.trace ++ evs ++
          [(t, Event.println SerialMsg.alertComplete), (t, Event.delay cfg.DEBOUNCE_TIME_MS),
            (t + 1000 * cfg.DEBOUNCE_TIME_MS, Event.delay 10)] ∧
        (writeAttempts evs).length = 2 * iterations cfg) := by
  have hT : Total P cfg := total_of_sound hP h0 h1
  constructor
  · refine ⟨_, _, playAlert_eq hT env w, rfl, rfl, ?_, ?_⟩
    · rw [playAlert_attempts, length_twice]
    · rw [playAlert_attempts, frames_twice, List.range_eq_range']
  · intro h
    refine ⟨_, [(w.now, Event.digitalRead TRIGGER_PIN LOW),
        (w.now, Event.println SerialMsg.triggerDetected),
        (w.now, Event.println SerialMsg.playingAlert)] ++
        writeEvents env (amplitude P cfg) (iterations cfg) 0 w.now w.nWrites,
      w.now + blockMicros env (iterations cfg) w.nWrites, loop_low hT env w h, ?_, ?_⟩
    · simp only [triggeredPass, List.append_assoc]
    · simp [writeAttempts_append, writeAttempts, writeAttempts_writeEvents, length_twice]

/-- C5 (amended) on the exact-arithmetic platform with the built-in profile, when the write of
the 1000th frame fails: all `2 * 88200` writes are attempted, and in the pass of `loop()` the
playback is followed by the quiet delay. -/
theorem playAlert_ignores_write_status_witness :
    (∃ w' evs, playAlert exactPlatform builtin failsAtFrame1000 World.boot = some w' ∧
      w'.trace = World.boot.trace ++ evs ∧
      (writeAttempts evs).length = 2 * iterations builtin) ∧
    ∃ w'' evs t, loop exactPlatform builtin failsAtFrame1000 World.boot = some w'' ∧
      w''.trace = World.boot.trace ++ evs ++
        [(t, Event.println SerialMsg.alertComplete),
          (t, Event.delay builtin.DEBOUNCE_TIME_MS),
          (t + 1000 * builtin.DEBOUNCE_TIME_MS, Event.delay 10)] := by
  have h := playAlert_ignores_write_status exactPlatform exactPlatform_sound builtin
    (by norm_num [builtin]) (by norm_num [builtin]) failsAtFrame1000 World.boot
  obtain ⟨⟨w', evs, h1, h2, -, h3, -⟩, h4⟩ := h
  obtain ⟨w'', evs', t, h5, h6, -⟩ := h4 rfl
  exact ⟨⟨w', evs, h1, h2, h3⟩, w'', evs', t, h5, h6⟩

/-! ## The poll loop -/

theorem run_trace_polls {P : Platform} {cfg : Config} (hT : Total P cfg) (env : Env) (n : Nat) :
    ∃ w, run P cfg env n = some w ∧ w.now = (passes P cfg env n).now ∧
      pollTimes w.trace = pollTimes (passes P cfg env n).trace ∧
      playTimes w.trace = playTimes (passes P cfg env n).trace ∧
      writeAttempts w.trace = writeAttempts (passes P cfg env n).trace :=
  ⟨_, run_eq hT env n, rfl, by simp [World.prepend, pollTimes_append, pollTimes_setupEvents],
    by simp [World.prepend, playTimes_append, playTimes_setupEvents],
    by simp [World.prepend, writeAttempts_append, writeAttempts_setupEvents]⟩

/-- C6: a pass of `loop()` that samples the trigger low invokes `playAlert` exactly once and
follows its return with the quiet delay `DEBOUNCE_TIME_MS` (1000 ms in the sketch) and the 10 ms
delay; a pass that samples it high invokes nothing. Over a run of `n` passes the invocations of
`playAlert` are exactly the polls that found the line low, one each, and after such a poll the
next poll comes no earlier than the quiet delay later: a line held low through playback and
quiet interval causes no second invocation in that span. -/
theorem loop_plays_once_per_low_poll (P : Platform) (hP : P.Sound) (cfg : Config)
    (h0 : 0 ≤ cfg.volume) (h1 : cfg.volume ≤ 1) (env : Env) (w : World) (n : Nat) :
    (env.pinLevel w.now = LOW →
      ∃ w' evs t, loop P cfg env w = some w' ∧
        w'.trace = w.trace ++ evs ++
          [(t, Event.delay cfg.DEBOUNCE_TIME_MS),
            (t + 1000 * cfg.DEBOUNCE_TIME_MS, Event.delay 10)] ∧
        playTimes evs = [w.now] ∧ pollTimes evs = [w.now] ∧ w.now ≤ t ∧
        w'.now = t + 1000 * cfg.DEBOUNCE_TIME_MS + 1000 * 10) ∧
    (env.pinLevel w.now = HIGH →
      ∃ w', loop P cfg env w = some w' ∧
        w'.trace = w.trace ++
          [(w.now, Event.digitalRead TRIGGER_PIN HIGH), (w.now, Event.delay 10)] ∧
        playTimes w'.trace = playTimes w.trace ∧ w'.now = w.now + 1000 * 10) ∧
    builtin.DEBOUNCE_TIME_MS = 1000 ∧
    ∃ wn, run P cfg env n = some wn ∧ (pollTimes wn.trace).length = n ∧
      playTimes wn.trace =
        (pollTimes wn.trace).filter (fun t => decide (env.pinLevel t = LOW)) ∧
      (pollTimes wn.trace).Pairwise (fun t t' =>
        t + 1000 * 10 ≤ t' ∧
          (env.pinLevel t = LOW → t + 1000 * cfg.DEBOUNCE_TIME_MS + 1000 * 10 ≤ t')) := by
  have hT : Total P cfg := total_of_sound hP h0 h1
  refine ⟨fun h => ?_, fun h => ?_, rfl, ?_⟩
  · refine ⟨_, [(w.now, Event.digitalRead TRIGGER_PIN LOW),
        (w.now, Event.println SerialMsg.triggerDetected),
        (w.now, Event.println SerialMsg.playingAlert)] ++
        writeEvents env (amplitude P cfg) (iterations cfg) 0 w.now w.nWrites ++
        [(w.now + blockMicros env (iterations cfg) w.nWrites,
          Event.println SerialMsg.alertComplete)],
      w.now + blockMicros env (iterations cfg) w.nWrites, loop_low hT env w h, ?_, ?_, ?_,
      Nat.le_add_right _ _, rfl⟩
    · simp only [triggeredPass, List.append_assoc, List.cons_append, List.nil_append]
    · simp [playTimes_append, playTimes, playTimes_writeEvents]
    · simp [pollTimes_append, pollTimes, pollTimes_writeEvents]
  · refine ⟨_, loop_high P cfg env w h, rfl, ?_, rfl⟩
    simp [playTimes_append, playTimes]
  · obtain ⟨wn, hrun, -, hpoll, hplay, -⟩ := run_trace_polls hT env n
    refine ⟨wn, hrun, ?_, ?_, ?_⟩
    · rw [hpoll, length_pollTimes_passes]
    · rw [hpoll, hplay, playTimes_passes]
    · rw [hpoll]
      exact pairwise_polls P cfg env n

/-- C6 on the exact-arithmetic platform with the built-in profile: a pass at boot with the
trigger held low, a pass 10 ms after boot with the trigger high again, and a run of three
passes with the trigger held low. -/
theorem loop_plays_once_per_low_poll_witness :
    (∃ w' evs t, loop exactPlatform builtin heldLow World.boot = some w' ∧
      w'.trace = World.boot.trace ++ evs ++
        [(t, Event.delay 1000), (t + 1000 * 1000, Event.delay 10)] ∧
      playTimes evs = [0] ∧ pollTimes evs = [0] ∧ w'.now = t + 1000 * 1000 + 1000 * 10) ∧
    (∃ w', loop exactPlatform builtin lowAtBoot (delay 10 World.boot) = some w' ∧
      playTimes w'.trace = playTimes (delay 10 World.boot).trace ∧
      w'.now = (delay 10 World.boot).now + 1000 * 10) ∧
    ∃ wn, run exactPlatform builtin heldLow 3 = some wn ∧ (pollTimes wn.trace).length = 3 ∧
      playTimes wn.trace =
        (pollTimes wn.trace).filter (fun t => decide (heldLow.pinLevel t = LOW)) := by
  have h := loop_plays_once_per_low_poll exactPlatform exactPlatform_sound builtin
    (by norm_num [builtin]) (by norm_num [builtin]) heldLow World.boot 3
  have h' := loop_plays_once_per_low_poll exactPlatform exactPlatform_sound builtin
    (by norm_num [builtin]) (by norm_num [builtin]) lowAtBoot (delay 10 World.boot) 0
  obtain ⟨w', evs, t, h1, h2, h3, h4, -, h5⟩ := h.1 rfl
  obtain ⟨v', g1, -, g2, g3⟩ := h'.2.1 (by decide)
  obtain ⟨wn, k1, k2, k3, -⟩ := h.2.2.2
  exact ⟨⟨w', evs, t, h1, h2, h3, h4, h5⟩, ⟨v', g1, g2, g3⟩, wn, k1, k2, k3⟩

/-- C10: every pass of `loop()` begins by reading the trigger once and reads it at no other
point (not during `playAlert`, not during the quiet delay). Hence the run depends on the
trigger line only through its level at the poll instants: a line `lvl` that agrees with the
original one at every poll instant of the run gives the very same run, whatever it does in
between, so a level change during playback or quiet interval leaves no effect. -/
theorem trigger_read_only_at_polls (P : Platform) (hP : P.Sound) (cfg : Config)
    (h0 : 0 ≤ cfg.volume) (h1 : cfg.volume ≤ 1) (env : Env) (lvl : Nat → Bool) (n : Nat) :
    (∀ v : World, ∃ v' rest, loop P cfg env v = some v' ∧
      v'.trace = v.trace ++ (v.now, Event.digitalRead TRIGGER_PIN (env.pinLevel v.now)) :: rest ∧
      pollTimes rest = []) ∧
    ∃ w, run P cfg env n = some w ∧ (pollTimes w.trace).length = n ∧
      ((∀ t ∈ pollTimes w.trace, lvl t = env.pinLevel t) →
        run P cfg { env with pinLevel := lvl } n = some w) := by
  have hT : Total P cfg := total_of_sound hP h0 h1
  constructor
  · intro v
    by_cases h : env.pinLevel v.now = LOW
    · refine ⟨_, [(v.now, Event.println SerialMsg.triggerDetected),
          (v.now, Event.println SerialMsg.playingAlert)] ++
          writeEvents env (amplitude P cfg) (iterations cfg) 0 v.now v.nWrites ++
          [(v.now + blockMicros env (iterations cfg) v.nWrites,
              Event.println SerialMsg.alertComplete),
            (v.now + blockMicros env (iterations cfg) v.nWrites,
              Event.delay cfg.DEBOUNCE_TIME_MS),
            (v.now + blockMicros env (iterations cfg) v.nWrites + 1000 * cfg.DEBOUNCE_TIME_MS,
              Event.delay 10)], loop_low hT env v h, ?_, ?_⟩
      · rw [h]
        simp only [triggeredPass, List.append_assoc, List.cons_append, List.nil_append]
      · simp [pollTimes_append, pollTimes, pollTimes_writeEvents]
    · have h' : env.pinLevel v.now = HIGH := by simpa [LOW, HIGH] using h
      refine ⟨_, [(v.now, Event.delay 10)], loop_high P cfg env v h', ?_, rfl⟩
      rw [h']
      rfl
  · have hpoll : pollTimes ((passes P cfg env n).prepend (setupEvents env)).trace =
        pollTimes (passes P cfg env n).trace := by
      simp [World.prepend, pollTimes_append, pollTimes_setupEvents]
    refine ⟨_, run_eq hT env n, ?_, ?_⟩
    · rw [hpoll, length_pollTimes_passes]
    · intro hag
      rw [hpoll] at hag
      rw [run_eq hT, passes_congr P cfg env { env with pinLevel := lvl } rfl rfl n hag]
      rfl

/-- C10 on the exact-arithmetic platform with the built-in profile: a trigger that is low at
boot only (it goes high during the playback) gives the same first pass as one held low. -/
theorem trigger_read_only_at_polls_witness :
    ∃ w, run exactPlatform builtin heldLow 1 = some w ∧
      run exactPlatform builtin { heldLow with pinLevel := lowAtBoot.pinLevel } 1 = some w := by
  have hT : Total exactPlatform builtin :=
    total_of_sound exactPlatform_sound (by norm_num [builtin]) (by norm_num [builtin])
  obtain ⟨-, w, h1, -, h2⟩ := trigger_read_only_at_polls exactPlatform exactPlatform_sound
    builtin (by norm_num [builtin]) (by norm_num [builtin]) heldLow lowAtBoot.pinLevel 1
  refine ⟨w, h1, h2 ?_⟩
  have hw : w = (passes exactPlatform builtin heldLow 1).prepend (setupEvents heldLow) :=
    Option.some.inj (h1.symm.trans (run_eq hT heldLow 1))
  intro t ht
  have hp : pollTimes w.trace = [0] := by
    rw [hw]
    show pollTimes (setupEvents heldLow ++ (passes exactPlatform builtin heldLow 1).trace) = [0]
    rw [pollTimes_append, pollTimes_setupEvents]
    show [] ++ pollTimes (stepT exactPlatform builtin heldLow ⟨0, 0, []⟩).trace = [0]
    rw [pollTimes_stepT]
    rfl
  rw [hp, List.mem_singleton] at ht
  rw [ht]
  rfl

/-! ## Start-up -/

theorem iterations_aboveNyquist : iterations aboveNyquist = 88200 := by
  simp [iterations, numSamples_aboveNyquist]

theorem passes_one_low {P : Platform} {cfg : Config} {env : Env} (h : env.pinLevel 0 = LOW) :
    passes P cfg env 1 =
      ⟨0 + blockMicros env (iterations cfg) 0 + 1000 * cfg.DEBOUNCE_TIME_MS + 1000 * 10,
        0 + 2 * iterations cfg, [] ++ triggeredPass P cfg env 0 0⟩ := by
  simp only [passes, stepT]
  rw [if_pos h]

theorem specValid_builtin : SpecValid builtin := by
  unfold SpecValid
  norm_num [builtin]

/-- C8 (as stated, refuted): a tone of 30000 Hz at 44100 Hz violates the Nyquist condition, yet
nothing rejects it: `setup()` completes, the first pass of `loop()` polls the trigger and plays,
and all 176400 samples are handed to the driver. -/
theorem aboveNyquist_is_played :
    ¬ SpecValid aboveNyquist ∧
      ∃ w, run exactPlatform aboveNyquist heldLow 1 = some w ∧
        pollTimes w.trace = [0] ∧ playTimes w.trace = [0] ∧
        (writeAttempts w.trace).length = 176400 := by
  have hT : Total exactPlatform aboveNyquist :=
    total_of_sound exactPlatform_sound (by norm_num [aboveNyquist, builtin])
      (by norm_num [aboveNyquist, builtin])
  refine ⟨by decide, _, run_eq hT heldLow 1, ?_, ?_, ?_⟩
  · rw [passes_one_low rfl]
    simp only [World.prepend, pollTimes_append, pollTimes_setupEvents, pollTimes_triggeredPass]
    rfl
  · rw [passes_one_low rfl]
    simp only [World.prepend, playTimes_append, playTimes_setupEvents, playTimes_triggeredPass]
    rfl
  · rw [passes_one_low rfl]
    simp only [World.prepend, writeAttempts_append, writeAttempts_setupEvents,
      writeAttempts_triggeredPass, List.length_append, length_twice, iterations_aboveNyquist]
    rfl

/-- C8 (amended): the sketch validates nothing. `setup()` does not look at the configuration
and always completes with the same effects, and the poll loop runs for every configuration
whose volume is in `[0, 1]`, whatever its frequency, duration and rate: each of the `n` passes
polls the trigger, each poll that finds it low plays, and each playback hands
`2 * num_samples` samples to the driver. The built-in configuration (10000 Hz, 44100 Hz,
2000 ms, 0.7) satisfies every validity condition. -/
theorem setup_validates_nothing (P : Platform) (cfg : Config) (env : Env) (n : Nat) :
    SpecValid builtin ∧
    run P cfg env 0 = some (setup env World.boot) ∧
    (setup env World.boot).trace.getLast? = some (0, Event.println SerialMsg.systemReady) ∧
    (P.Sound → 0 ≤ cfg.volume → cfg.volume ≤ 1 →
      ∃ w, run P cfg env n = some w ∧ (pollTimes w.trace).length = n ∧
        playTimes w.trace =
          (pollTimes w.trace).filter (fun t => decide (env.pinLevel t = LOW)) ∧
        (writeAttempts w.trace).length = 2 * iterations cfg * (playTimes w.trace).length) := by
  refine ⟨specValid_builtin, rfl, by rw [setup_eq]; rfl, fun hP h0 h1 => ?_⟩
  have hT : Total P cfg := total_of_sound hP h0 h1
  obtain ⟨w, hrun, -, hpoll, hplay, hwr⟩ := run_trace_polls hT env n
  refine ⟨w, hrun, ?_, ?_, ?_⟩
  · rw [hpoll, length_pollTimes_passes]
  · rw [hpoll, hplay, playTimes_passes]
  · rw [hwr, hplay, length_writeAttempts_passes]

/-- C8 (amended) at a configuration with a duration of zero, which is not valid. -/
theorem setup_validates_nothing_witness :
    ¬ SpecValid zeroDuration ∧
      ∃ w, run exactPlatform zeroDuration heldLow 2 = some w ∧ (pollTimes w.trace).length = 2 ∧
        playTimes w.trace =
          (pollTimes w.trace).filter (fun t => decide (heldLow.pinLevel t = LOW)) ∧
        (writeAttempts w.trace).length =
          2 * iterations zeroDuration * (playTimes w.trace).length :=
  ⟨by decide, (setup_validates_nothing exactPlatform zeroDuration heldLow 2).2.2.2
    exactPlatform_sound (by norm_num [zeroDuration, builtin])
    (by norm_num [zeroDuration, builtin])⟩

/-- C9 (as stated, refuted): `i2s_driver_install` and `i2s_set_pin` both fail, yet
initialisation prints "I2S initialized successfully", and the poll loop is entered: the first
pass samples the trigger and invokes `playAlert`. -/
theorem broken_driver_still_polls :
    driverBroken.driverInstallOk = false ∧ driverBroken.setPinOk = false ∧
      ∃ w, run exactPlatform builtin driverBroken 1 = some w ∧
        (0, Event.println SerialMsg.i2sInitializedSuccessfully) ∈ w.trace ∧
        pollTimes w.trace = [0] ∧ playTimes w.trace = [0] := by
  have hT : Total exactPlatform builtin :=
    total_of_sound exactPlatform_sound (by norm_num [builtin]) (by norm_num [builtin])
  refine ⟨rfl, rfl, _, run_eq hT driverBroken 1, ?_, ?_, ?_⟩
  · simp [World.prepend, setupEvents]
  · rw [passes_one_low rfl]
    simp only [World.prepend, pollTimes_append, pollTimes_setupEvents, pollTimes_triggeredPass]
    rfl
  · rw [passes_one_low rfl]
    simp only [World.prepend, playTimes_append, playTimes_setupEvents, playTimes_triggeredPass]
    rfl

/-- C9 (amended): `initI2S()` discards the status of `i2s_driver_install` and `i2s_set_pin`.
Whatever they return, it prints its success line and `setup()` completes; the run that follows
is, effect for effect and to the microsecond, the run that follows a successful
initialisation: the trigger is sampled once per pass and `playAlert` is invoked on every poll
that finds it low. -/
theorem initI2S_ignores_driver_status (P : Platform) (hP : P.Sound) (cfg : Config)
    (h0 : 0 ≤ cfg.volume) (h1 : cfg.volume ≤ 1) (env : Env) (n : Nat) :
    (setup env World.boot).trace =
      [(0, Event.serialBegin 115200), (0, Event.println SerialMsg.initializingSystem),
        (0, Event.pinModeInputPullup TRIGGER_PIN), (0, Event.println SerialMsg.initializingI2S),
        (0, Event.driverInstall env.driverInstallOk), (0, Event.setPin env.setPinOk),
        (0, Event.println SerialMsg.i2sInitializedSuccessfully),
        (0, Event.println SerialMsg.systemReady)] ∧
    ∃ now nw rest,
      run P cfg env n = some ⟨now, nw, (setup env World.boot).trace ++ rest⟩ ∧
      run P cfg { env with driverInstallOk := true, setPinOk := true } n =
        some ⟨now, nw,
          (setup { env with driverInstallOk := true, setPinOk := true } World.boot).trace ++
            rest⟩ ∧
      (pollTimes rest).length = n ∧
      playTimes rest = (pollTimes rest).filter (fun t => decide (env.pinLevel t = LOW)) := by
  have hT : Total P cfg := total_of_sound hP h0 h1
  refine ⟨by rw [setup_eq]; rfl, (passes P cfg env n).now, (passes P cfg env n).nWrites,
    (passes P cfg env n).trace, ?_, ?_, length_pollTimes_passes P cfg env n,
    playTimes_passes P cfg env n⟩
  · rw [run_eq hT, setup_eq]
    rfl
  · rw [run_eq hT, setup_eq,
      passes_congr P cfg env { env with driverInstallOk := true, setPinOk := true } rfl rfl n
        (fun _ _ => rfl)]
    rfl

/-- C9 (amended) when both driver calls fail, over two passes. -/
theorem initI2S_ignores_driver_status_witness :
    (setup driverBroken World.boot).trace =
      [(0, Event.serialBegin 115200), (0, Event.println SerialMsg.initializingSystem),
        (0, Event.pinModeInputPullup TRIGGER_PIN), (0, Event.println SerialMsg.initializingI2S),
        (0, Event.driverInstall driverBroken.driverInstallOk),
        (0, Event.setPin driverBroken.setPinOk),
        (0, Event.println SerialMsg.i2sInitializedSuccessfully),
        (0, Event.println SerialMsg.systemReady)] ∧
    ∃ now nw rest,
      run exactPlatform builtin driverBroken 2 =
        some ⟨now, nw, (setup driverBroken World.boot).trace ++ rest⟩ ∧
      run exactPlatform builtin { driverBroken with driverInstallOk := true, setPinOk := true }
          2 =
        some ⟨now, nw,
          (setup { driverBroken with driverInstallOk := true, setPinOk := true }
            World.boot).trace ++ rest⟩ ∧
      (pollTimes rest).length = 2 ∧
      playTimes rest =
        (pollTimes rest).filter (fun t => decide (driverBroken.pinLevel t = LOW)) :=
  initI2S_ignores_driver_status exactPlatform exactPlatform_sound builtin
    (by norm_num [builtin]) (by norm_num [builtin]) driverBroken 2

/-! ## The sine of the built-in tone -/

theorem cos_peak_bounds :
    (9999936564 : ℝ) / 10000000000 ≤ Real.cos (Real.pi / 882) ∧
      Real.cos (Real.pi / 882) ≤ 9999936565 / 10000000000 := by
  have hlo := Real.pi_gt_d6
  have hhi := Real.pi_lt_d6
  have hx0 : (3561895 : ℝ) / 1000000000 ≤ Real.pi / 882 := by
    rw [le_div_iff₀ (by norm_num)]; norm_num at hlo ⊢; linarith
  have hx1 : Real.pi / 882 ≤ 3561897 / 1000000000 := by
    rw [div_le_iff₀ (by norm_num)]; norm_num at hhi ⊢; linarith
  have hxpos : 0 ≤ Real.pi / 882 := by linarith
  have habs : |Real.pi / 882| ≤ 1 := by rw [abs_of_nonneg hxpos]; linarith
  have hb := abs_le.mp (Real.cos_bound habs)
  rw [abs_of_nonneg hxpos] at hb
  have h2lo : ((3561895 : ℝ) / 1000000000) ^ 2 ≤ (Real.pi / 882) ^ 2 :=
    pow_le_pow_left₀ (by norm_num) hx0 2
  have h2hi : (Real.pi / 882) ^ 2 ≤ ((3561897 : ℝ) / 1000000000) ^ 2 :=
    pow_le_pow_left₀ hxpos hx1 2
  have h4hi : (Real.pi / 882) ^ 4 ≤ ((3561897 : ℝ) / 1000000000) ^ 4 :=
    pow_le_pow_left₀ hxpos hx1 4
  constructor
  · have := hb.1
    norm_num at h2lo h2hi h4hi this ⊢
    linarith
  · have := hb.2
    norm_num at h2lo h2hi h4hi this ⊢
    linarith

theorem sin_index_398 :
    Real.sin (2 * Real.pi * ((10000 : ℤ) : ℝ) * ((398 : ℕ) : ℝ) / ((44100 : ℤ) : ℝ)) =
      Real.cos (Real.pi / 882) := by
  have h : 2 * Real.pi * ((10000 : ℤ) : ℝ) * ((398 : ℕ) : ℝ) / ((44100 : ℤ) : ℝ) =
      (Real.pi / 2 - Real.pi / 882) + ((90 : ℕ) : ℝ) * (2 * Real.pi) := by
    push_cast; ring
  rw [h, Real.sin_add_nat_mul_two_pi, Real.sin_pi_div_two_sub]

theorem sin_index_43 :
    Real.sin (2 * Real.pi * ((10000 : ℤ) : ℝ) * ((43 : ℕ) : ℝ) / ((44100 : ℤ) : ℝ)) =
      -Real.cos (Real.pi / 882) := by
  have h : 2 * Real.pi * ((10000 : ℤ) : ℝ) * ((43 : ℕ) : ℝ) / ((44100 : ℤ) : ℝ) =
      -(Real.pi / 2 - Real.pi / 882) + ((10 : ℕ) : ℝ) * (2 * Real.pi) := by
    push_cast; ring
  rw [h, Real.sin_add_nat_mul_two_pi, Real.sin_neg, Real.sin_pi_div_two_sub]

/-- For an odd `m` between `-441` and `441`, `cos (π m / 882)` lies between `0` and
`cos (π / 882)`. -/
theorem cos_odd_small (m : ℤ) (hodd : m % 2 = 1) (hlo : -441 ≤ m) (hhi : m ≤ 441) :
    0 ≤ Real.cos (Real.pi * m / 882) ∧ Real.cos (Real.pi * m / 882) ≤ Real.cos (Real.pi / 882) := by
  have hpi := Real.pi_pos
  have habs1 : (1 : ℝ) ≤ |(m : ℝ)| := by
    have : (1 : ℤ) ≤ |m| := by
      rcases abs_cases m with ⟨h, _⟩ | ⟨h, _⟩ <;> omega
    exact_mod_cast this
  have habs2 : |(m : ℝ)| ≤ 441 := by
    have : |m| ≤ (441 : ℤ) := abs_le.mpr ⟨hlo, hhi⟩
    exact_mod_cast this
  have hrw : Real.cos (Real.pi * m / 882) = Real.cos (Real.pi * |(m : ℝ)| / 882) := by
    rw [← Real.cos_abs (Real.pi * m / 882)]
    congr 1
    rw [abs_div, abs_mul, abs_of_pos hpi, abs_of_pos (by norm_num : (0 : ℝ) < 882)]
  rw [hrw]
  constructor
  · apply Real.cos_nonneg_of_mem_Icc
    constructor
    · have : 0 ≤ Real.pi * |(m : ℝ)| / 882 := by positivity
      linarith
    · rw [div_le_div_iff₀ (by norm_num) (by norm_num)]
      nlinarith
  · apply Real.cos_le_cos_of_nonneg_of_le_pi
    · positivity
    · rw [div_le_iff₀ (by norm_num)]
      nlinarith
    · rw [div_le_div_iff₀ (by norm_num) (by norm_num)]
      nlinarith

/-- No sample instant of the built-in tone comes closer to a crest of the sine than
`π / 882`: the sine never exceeds `cos (π / 882)` in magnitude. -/
theorem abs_sin_builtin_le (i : ℕ) :
    |Real.sin (2 * Real.pi * ((10000 : ℤ) : ℝ) * (i : ℝ) / ((44100 : ℤ) : ℝ))| ≤
      Real.cos (Real.pi / 882) := by
  obtain ⟨q, r, hqr, hr⟩ : ∃ q r : ℕ, 100 * i = 441 * q + r ∧ r < 441 :=
    ⟨100 * i / 441, 100 * i % 441, (Nat.div_add_mod _ _).symm, Nat.mod_lt _ (by norm_num)⟩
  have hi : (i : ℝ) = (441 * q + r) / 100 := by
    have : ((100 * i : ℕ) : ℝ) = ((441 * q + r : ℕ) : ℝ) := by rw [hqr]
    push_cast at this
    linarith
  by_cases hcase : 4 * (r : ℤ) - 441 ≤ 441
  · have h : 2 * Real.pi * ((10000 : ℤ) : ℝ) * (i : ℝ) / ((44100 : ℤ) : ℝ) =
        (Real.pi / 2 - -(Real.pi * ((4 * (r : ℤ) - 441 : ℤ) : ℝ) / 882)) +
          (q : ℝ) * (2 * Real.pi) := by
      rw [hi]; push_cast; ring
    rw [h, Real.sin_add_nat_mul_two_pi, Real.sin_pi_div_two_sub, Real.cos_neg]
    obtain ⟨h0, h1⟩ := cos_odd_small (4 * (r : ℤ) - 441) (by omega) (by omega) hcase
    rw [abs_of_nonneg h0]
    exact h1
  · have h : 2 * Real.pi * ((10000 : ℤ) : ℝ) * (i : ℝ) / ((44100 : ℤ) : ℝ) =
        (Real.pi / 2 - -(Real.pi * ((4 * (r : ℤ) - 441 - 882 : ℤ) : ℝ) / 882 + Real.pi)) +
          (q : ℝ) * (2 * Real.pi) := by
      rw [hi]; push_cast; ring
    rw [h, Real.sin_add_nat_mul_two_pi, Real.sin_pi_div_two_sub, Real.cos_neg,
      Real.cos_add_pi, abs_neg]
    obtain ⟨h0, h1⟩ := cos_odd_small (4 * (r : ℤ) - 441 - 882) (by omega) (by omega)
      (by omega)
    rw [abs_of_nonneg h0]
    exact h1

/-! ## Bounds on the computed sample -/

theorem fl64_le_of_le {P : Platform} (hP : P.Sound) {y Y : ℚ} (hy : y ≤ Y) (h1 : 1 ≤ |Y|)
    (h2 : |Y| ≤ 2 ^ 127) : P.fl64 y ≤ Y + |Y| / 2 ^ 53 := by
  have hm := hP.fl64_mono hy
  have hr := abs_le.mp (hP.fl64_rel Y (le_trans (by norm_num) h1) h2)
  linarith [hr.2]

theorem fl64_ge_of_ge {P : Platform} (hP : P.Sound) {y Y : ℚ} (hy : Y ≤ y) (h1 : 1 ≤ |Y|)
    (h2 : |Y| ≤ 2 ^ 127) : Y - |Y| / 2 ^ 53 ≤ P.fl64 y := by
  have hm := hP.fl64_mono hy
  have hr := abs_le.mp (hP.fl64_rel Y (le_trans (by norm_num) h1) h2)
  linarith [hr.1]

theorem truncToZero_bounds {x : ℚ} {n : ℤ} (h1 : -((n : ℚ) + 1) < x) (h2 : x < n + 1) :
    -n ≤ truncToZero x ∧ truncToZero x ≤ n := by
  have hx : |x| < n + 1 := abs_lt.mpr ⟨h1, h2⟩
  have ht : |(truncToZero x : ℚ)| < n + 1 := lt_of_le_of_lt (truncToZero_abs_le x) hx
  have ht' : |truncToZero x| < n + 1 := by exact_mod_cast ht
  have := abs_lt.mp ht'
  constructor <;> omega

theorem toInt16_eq_some {x : ℚ} {n : ℤ} (h : truncToZero x = n) (h1 : -32768 ≤ n)
    (h2 : n ≤ 32767) : toInt16 x = some n := by
  unfold toInt16
  simp only [h]
  rw [if_pos ⟨h1, h2⟩]

theorem amplitudeScale_fullVolume {P : Platform} (hP : P.Sound) {cfg : Config}
    (hv : cfg.volume = 1) : amplitudeScale P cfg = 32767 := by
  unfold amplitudeScale volumeFloat
  rw [hv, hP.fl64_one, hP.fl32_one, one_mul]
  exact_mod_cast hP.fl32_int 32767 (by norm_num)

theorem amplitudeScale_muted {P : Platform} (hP : P.Sound) {cfg : Config}
    (hv : cfg.volume = 0) : amplitudeScale P cfg = 0 := by
  unfold amplitudeScale volumeFloat
  rw [hv, hP.fl64_zero, hP.fl32_zero, zero_mul, hP.fl32_zero]

/-- The sine value computed at an index of a 10000 Hz tone at 44100 Hz, when accurate, is at
most `0.9999936575` in magnitude. -/
theorem sine_abs_le_of_accurate {P : Platform} {cfg : Config}
    (hf : cfg.ALERT_FREQUENCY_HZ = 10000) (hr : cfg.SAMPLE_RATE = 44100) {i : Nat}
    (h : SineAccurate P cfg i) : |P.sin (phase P cfg i)| ≤ 9999936575 / 10000000000 := by
  unfold SineAccurate at h
  rw [hf, hr] at h
  have hb := abs_le.mp (abs_sin_builtin_le i)
  have hc := cos_peak_bounds.2
  have h' := abs_le.mp h
  have : |((P.sin (phase P cfg i) : ℚ) : ℝ)| ≤ 9999936575 / 10000000000 := by
    rw [abs_le]
    norm_num at h' ⊢
    constructor <;> linarith [hb.1, hb.2, h'.1, h'.2]
  rw [← Rat.cast_abs] at this
  have h10 : (((9999936575 / 10000000000 : ℚ) : ℚ) : ℝ) = 9999936575 / 10000000000 := by
    push_cast; rfl
  rw [← h10] at this
  exact Rat.cast_le.mp this

theorem sine_398_of_accurate {P : Platform} {cfg : Config}
    (hf : cfg.ALERT_FREQUENCY_HZ = 10000) (hr : cfg.SAMPLE_RATE = 44100)
    (h : SineAccurate P cfg 398) :
    9999936554 / 10000000000 ≤ P.sin (phase P cfg 398) ∧
      P.sin (phase P cfg 398) ≤ 9999936575 / 10000000000 := by
  unfold SineAccurate at h
  rw [hf, hr, sin_index_398] at h
  have hc := cos_peak_bounds
  have h' := abs_le.mp h
  have : (((9999936554 / 10000000000 : ℚ) : ℚ) : ℝ) ≤ ((P.sin (phase P cfg 398) : ℚ) : ℝ) ∧
      ((P.sin (phase P cfg 398) : ℚ) : ℝ) ≤ (((9999936575 / 10000000000 : ℚ) : ℚ) : ℝ) := by
    push_cast
    norm_num at h' ⊢
    constructor <;> linarith [hc.1, hc.2, h'.1, h'.2]
  exact ⟨Rat.cast_le.mp this.1, Rat.cast_le.mp this.2⟩

theorem sine_43_of_accurate {P : Platform} {cfg : Config}
    (hf : cfg.ALERT_FREQUENCY_HZ = 10000) (hr : cfg.SAMPLE_RATE = 44100)
    (h : SineAccurate P cfg 43) :
    -(9999936575 / 10000000000) ≤ P.sin (phase P cfg 43) ∧
      P.sin (phase P cfg 43) ≤ -(9999936554 / 10000000000) := by
  unfold SineAccurate at h
  rw [hf, hr, sin_index_43] at h
  have hc := cos_peak_bounds
  have h' := abs_le.mp h
  have : (((-(9999936575 / 10000000000) : ℚ) : ℚ) : ℝ) ≤ ((P.sin (phase P cfg 43) : ℚ) : ℝ) ∧
      ((P.sin (phase P cfg 43) : ℚ) : ℝ) ≤ (((-(9999936554 / 10000000000) : ℚ) : ℚ) : ℝ) := by
    push_cast
    norm_num at h' ⊢
    constructor <;> linarith [hc.1, hc.2, h'.1, h'.2]
  exact ⟨Rat.cast_le.mp this.1, Rat.cast_le.mp this.2⟩

/-- The `double` product of a factor `a` in `[lo, hi]` and a sine `s` in `[slo, shi]`, all
positive, lies within a rounding error of `[lo * slo, hi * shi]`. -/
theorem fl64_mul_bounds {P : Platform} (hP : P.Sound) {a s lo hi slo shi : ℚ}
    (ha0 : lo ≤ a) (ha1 : a ≤ hi) (hs0 : slo ≤ s) (hs1 : s ≤ shi) (hlo : 0 ≤ lo)
    (hslo : 0 ≤ slo) (h1 : 1 ≤ lo * slo) (h2 : hi * shi ≤ 2 ^ 127) :
    lo * slo - lo * slo / 2 ^ 53 ≤ P.fl64 (a * s) ∧
      P.fl64 (a * s) ≤ hi * shi + hi * shi / 2 ^ 53 := by
  have hl : lo * slo ≤ a * s := mul_le_mul ha0 hs0 hslo (le_trans hlo ha0)
  have hu : a * s ≤ hi * shi :=
    mul_le_mul ha1 hs1 (le_trans hslo hs0) (le_trans hlo (le_trans ha0 ha1))
  have hpos : 0 < lo * slo := lt_of_lt_of_le one_pos h1
  have hpos' : 0 < hi * shi := lt_of_lt_of_le hpos (le_trans hl hu)
  have habs : |lo * slo| = lo * slo := abs_of_pos hpos
  have habs' : |hi * shi| = hi * shi := abs_of_pos hpos'
  have g1 : 1 ≤ |lo * slo| := le_of_le_of_eq h1 habs.symm
  have g2 : |lo * slo| ≤ 2 ^ 127 := le_of_eq_of_le habs (le_trans (le_trans hl hu) h2)
  have g3 : 1 ≤ |hi * shi| := le_of_le_of_eq (le_trans h1 (le_trans hl hu)) habs'.symm
  have g4 : |hi * shi| ≤ 2 ^ 127 := le_of_eq_of_le habs' h2
  have e1 := fl64_ge_of_ge hP hl g1 g2
  have e2 := fl64_le_of_le hP hu g3 g4
  rw [habs] at e1
  rw [habs'] at e2
  exact ⟨e1, e2⟩

theorem waveValue_398_builtin {P : Platform} (hP : P.Sound) (h : SineAccurate P builtin 398) :
    (22936 : ℚ) ≤ waveValue P builtin 398 ∧ waveValue P builtin 398 < 22936 + 1 := by
  obtain ⟨a0, a1⟩ := builtin_scale_bounds hP builtin rfl
  obtain ⟨s0, s1⟩ := sine_398_of_accurate rfl rfl h
  obtain ⟨b0, b1⟩ := fl64_mul_bounds hP a0 a1 s0 s1 (by norm_num) (by norm_num)
    (by norm_num) (by norm_num)
  unfold waveValue scaled
  constructor
  · refine le_trans ?_ b0
    norm_num
  · refine lt_of_le_of_lt b1 ?_
    norm_num

/-! ## Accuracy of the computed sine -/

theorem abs_sin_sub_sin_le (x y : ℝ) : |Real.sin x - Real.sin y| ≤ |x - y| := by
  rw [Real.sin_sub_sin, abs_mul, abs_mul, abs_two]
  have h1 := @Real.abs_sin_le_abs ((x - y) / 2)
  have h2 := Real.abs_cos_le_one ((x + y) / 2)
  have h3 : |(x - y) / 2| = |x - y| / 2 := by rw [abs_div, abs_two]
  have h4 : 0 ≤ |Real.sin ((x - y) / 2)| := abs_nonneg _
  calc 2 * |Real.sin ((x - y) / 2)| * |Real.cos ((x + y) / 2)|
      ≤ 2 * |Real.sin ((x - y) / 2)| * 1 :=
        mul_le_mul_of_nonneg_left h2 (by positivity)
    _ ≤ |x - y| := by rw [h3] at h1; linarith

theorem pi_rat_bounds {P : Platform} (hA : P.Accurate) :
    (314 : ℚ) / 100 ≤ P.PI ∧ P.PI ≤ 315 / 100 := by
  have h := abs_le.mp hA.pi_close
  have hlo := Real.pi_gt_d6
  have hhi := Real.pi_lt_d6
  have : (((314 / 100 : ℚ) : ℚ) : ℝ) ≤ ((P.PI : ℚ) : ℝ) ∧
      ((P.PI : ℚ) : ℝ) ≤ (((315 / 100 : ℚ) : ℚ) : ℝ) := by
    push_cast
    norm_num at h hlo hhi ⊢
    constructor <;> linarith [h.1, h.2]
  exact ⟨Rat.cast_le.mp this.1, Rat.cast_le.mp this.2⟩

/-- Rounding a value `y ≥ 1` to `double` moves it by at most `y / 2⁵³`. -/
theorem fl64_near {P : Platform} (hP : P.Sound) {y : ℚ} (h1 : 1 ≤ y) (h2 : y ≤ 2 ^ 100) :
    y - y / 2 ^ 53 ≤ P.fl64 y ∧ P.fl64 y ≤ y + y / 2 ^ 53 := by
  have hpos : 0 < y := lt_of_lt_of_le one_pos h1
  have habs : |y| = y := abs_of_pos hpos
  have g1 : 1 / 2 ^ 126 ≤ |y| := le_of_le_of_eq (le_trans (by norm_num) h1) habs.symm
  have g2 : |y| ≤ 2 ^ 127 := le_of_eq_of_le habs (le_trans h2 (by norm_num))
  have hr := abs_le.mp (hP.fl64_rel y g1 g2)
  rw [habs] at hr
  constructor <;> linarith [hr.1, hr.2]

/-- The phase the sketch computes for a 10000 Hz tone at 44100 Hz differs from
`2 * PI * 10000 * i / 44100` by at most `7 i / 2⁵³`. -/
theorem phase_error {P : Platform} (hP : P.Sound) (hA : P.Accurate) {cfg : Config}
    (hf : cfg.ALERT_FREQUENCY_HZ = 10000) (hr : cfg.SAMPLE_RATE = 44100) (i : Nat)
    (hi : i < 88200) :
    |phase P cfg i - 2 * P.PI * 10000 * i / 44100| ≤ 7 * i / 2 ^ 53 := by
  obtain ⟨pl, pu⟩ := pi_rat_bounds hA
  unfold phase
  rw [hf, hr]
  push_cast
  rcases Nat.eq_zero_or_pos i with h0 | hpos
  · subst h0
    simp [hP.fl64_zero]
  have hi1 : (1 : ℚ) ≤ i := by exact_mod_cast hpos
  have hi2 : (i : ℚ) ≤ 88200 := by exact_mod_cast hi.le
  -- step 1: `2 * PI`
  obtain ⟨a0, a1⟩ := fl64_near hP (show (1 : ℚ) ≤ 2 * P.PI by linarith)
    (show 2 * P.PI ≤ 2 ^ 100 by norm_num; linarith)
  set p1 := P.fl64 (2 * P.PI) with hp1
  -- step 2: `* ALERT_FREQUENCY_HZ`
  have hp1lo : (6 : ℚ) ≤ p1 := by norm_num at a0; linarith
  have hp1hi : p1 ≤ 7 := by norm_num at a1; linarith
  obtain ⟨b0, b1⟩ := fl64_near hP (show (1 : ℚ) ≤ p1 * 10000 by linarith)
    (show p1 * 10000 ≤ 2 ^ 100 by norm_num; linarith)
  set p2 := P.fl64 (p1 * 10000) with hp2
  have hp2lo : (60000 : ℚ) - 1 ≤ p2 := by norm_num at b0; linarith
  have hp2hi : p2 ≤ 70001 := by norm_num at b1; linarith
  have e2 : |p2 - 2 * P.PI * 10000| ≤ 140001 / 2 ^ 53 := by
    rw [abs_le]
    norm_num at a0 a1 b0 b1 ⊢
    constructor <;> linarith
  -- step 3: `* i`
  have hm0 : 59999 * (1 : ℚ) ≤ p2 * i :=
    mul_le_mul (by linarith) hi1 (by norm_num) (by linarith)
  have hm1 : p2 * i ≤ 70001 * i := mul_le_mul_of_nonneg_right hp2hi (by linarith)
  have hm2 : p2 * i ≤ 70001 * 88200 := le_trans hm1 (by linarith)
  obtain ⟨c0, c1⟩ := fl64_near hP (show (1 : ℚ) ≤ p2 * i by linarith)
    (show p2 * i ≤ 2 ^ 100 by norm_num; linarith)
  set p3 := P.fl64 (p2 * i) with hp3
  have e2i : |p2 * i - 2 * P.PI * 10000 * i| ≤ 140001 / 2 ^ 53 * i := by
    have : p2 * i - 2 * P.PI * 10000 * i = (p2 - 2 * P.PI * 10000) * i := by ring
    rw [this, abs_mul, abs_of_nonneg (by linarith : (0 : ℚ) ≤ i)]
    exact mul_le_mul_of_nonneg_right e2 (by linarith)
  -- step 4: `/ SAMPLE_RATE`
  have hq0 : (1 : ℚ) ≤ p3 / 44100 := by
    rw [le_div_iff₀ (by norm_num)]
    norm_num at c0
    linarith
  have hq1 : p3 / 44100 ≤ 2 ^ 100 := by
    rw [div_le_iff₀ (by norm_num)]
    norm_num at c1 ⊢
    linarith
  obtain ⟨d0, d1⟩ := fl64_near hP hq0 hq1
  have e2i' := abs_le.mp e2i
  rw [abs_le]
  have hdiv : p3 / 44100 = p3 * (1 / 44100) := by ring
  have hdiv' : 2 * P.PI * 10000 * (i : ℚ) / 44100 = 2 * P.PI * 10000 * i * (1 / 44100) := by
    ring
  rw [hdiv] at d0 d1
  rw [hdiv, hdiv']
  have hPi : P.PI * i ≤ 315 / 100 * i := mul_le_mul_of_nonneg_right pu (by linarith)
  have hPi' : 314 / 100 * (i : ℚ) ≤ P.PI * i := mul_le_mul_of_nonneg_right pl (by linarith)
  norm_num at c0 c1 d0 d1 e2i' hm1 ⊢
  constructor <;> linarith [e2i'.1, e2i'.2]

/-- On a platform whose arithmetic is sound and whose `PI` and sine are accurate, the sine of
every one of the 88200 sample instants of a 10000 Hz tone at 44100 Hz is computed to within
`10⁻⁹`. -/
theorem sineAccurate_of_accurate {P : Platform} (hP : P.Sound) (hA : P.Accurate) {cfg : Config}
    (hf : cfg.ALERT_FREQUENCY_HZ = 10000) (hr : cfg.SAMPLE_RATE = 44100) {i : Nat}
    (hi : i < 88200) : SineAccurate P cfg i := by
  have hph := phase_error hP hA hf hr i hi
  have hphR : |((phase P cfg i : ℚ) : ℝ) - 2 * ((P.PI : ℚ) : ℝ) * 10000 * i / 44100| ≤
      7 * i / 2 ^ 53 := by
    have : ((|phase P cfg i - 2 * P.PI * 10000 * i / 44100| : ℚ) : ℝ) ≤
        ((7 * (i : ℚ) / 2 ^ 53 : ℚ) : ℝ) := Rat.cast_le.mpr hph
    rw [Rat.cast_abs] at this
    push_cast at this
    exact this
  have hs := hA.sin_close (phase P cfg i) (hP.fl64_idem _)
  have hl := abs_sin_sub_sin_le ((phase P cfg i : ℚ) : ℝ)
    (2 * Real.pi * ((10000 : ℤ) : ℝ) * (i : ℝ) / ((44100 : ℤ) : ℝ))
  have hi2 : (i : ℝ) ≤ 88200 := by exact_mod_cast hi.le
  have hi0 : (0 : ℝ) ≤ i := Nat.cast_nonneg i
  have hpi := abs_le.mp hA.pi_close
  have hθ : |2 * ((P.PI : ℚ) : ℝ) * 10000 * i / 44100 -
      2 * Real.pi * ((10000 : ℤ) : ℝ) * (i : ℝ) / ((44100 : ℤ) : ℝ)| ≤ i / 2 ^ 51 := by
    have e : 2 * ((P.PI : ℚ) : ℝ) * 10000 * i / 44100 -
        2 * Real.pi * ((10000 : ℤ) : ℝ) * (i : ℝ) / ((44100 : ℤ) : ℝ) =
        (((P.PI : ℚ) : ℝ) - Real.pi) * (i * (20000 / 44100)) := by
      push_cast; ring
    rw [e, abs_mul, abs_of_nonneg (by positivity : (0 : ℝ) ≤ i * (20000 / 44100))]
    have h1 : |((P.PI : ℚ) : ℝ) - Real.pi| * (i * (20000 / 44100)) ≤
        1 / 2 ^ 51 * (i * (20000 / 44100)) :=
      mul_le_mul_of_nonneg_right hA.pi_close (by positivity)
    refine le_trans h1 ?_
    rw [div_eq_mul_one_div (i : ℝ)]
    nlinarith [hi0]
  unfold SineAccurate
  rw [hf, hr]
  have hs' := abs_le.mp hs
  have hl' := abs_le.mp hl
  have hphR' := abs_le.mp hphR
  have hθ' := abs_le.mp hθ
  have hd : |((phase P cfg i : ℚ) : ℝ) -
      2 * Real.pi * ((10000 : ℤ) : ℝ) * (i : ℝ) / ((44100 : ℤ) : ℝ)| ≤
      7 * i / 2 ^ 53 + i / 2 ^ 51 := by
    rw [abs_le]
    constructor <;> linarith [hphR'.1, hphR'.2, hθ'.1, hθ'.2]
  have hl2 := abs_le.mp (le_trans hl hd)
  rw [abs_le]
  norm_num at hs' hl2 ⊢
  constructor <;> linarith [hs'.1, hs'.2, hl2.1, hl2.2]

/-- The assumptions are consistent: some platform is both sound and accurate. -/
theorem exists_sound_accurate : ∃ P : Platform, P.Sound ∧ P.Accurate := by
  have hε : (0 : ℝ) < 1 / 2 ^ 51 := by positivity
  have hsin : ∀ x : ℚ, ∃ q : ℚ, |q| ≤ 1 ∧ |((q : ℚ) : ℝ) - Real.sin x| ≤ 1 / 2 ^ 51 := by
    intro x
    have h1 := Real.sin_le_one x
    have h2 := Real.neg_one_le_sin x
    obtain ⟨q, hq1, hq2⟩ := exists_rat_btwn
      (show max (Real.sin x - 1 / 2 ^ 51) (-1) < min (Real.sin x + 1 / 2 ^ 51) 1 by
        rw [max_lt_iff, lt_min_iff, lt_min_iff]
        refine ⟨⟨by linarith, by linarith⟩, by linarith, by norm_num⟩)
    rw [max_lt_iff] at hq1
    rw [lt_min_iff] at hq2
    refine ⟨q, ?_, ?_⟩
    · have : |((q : ℚ) : ℝ)| ≤ 1 := abs_le.mpr ⟨hq1.2.le, hq2.2.le⟩
      rw [← Rat.cast_abs] at this
      exact_mod_cast this
    · rw [abs_le]
      constructor <;> linarith [hq1.1, hq2.1]
  obtain ⟨p, hp1, hp2⟩ := exists_rat_btwn
    (show Real.pi - 1 / 2 ^ 51 < Real.pi + 1 / 2 ^ 51 by linarith)
  choose f hf using hsin
  refine ⟨⟨p, f, id, id⟩, ?_, ?_⟩
  · exact
      { fl32_mono := monotone_id
        fl64_mono := monotone_id
        fl32_int := fun _ _ => rfl
        fl32_neg := fun _ => rfl
        fl64_fl32 := fun _ => rfl
        fl64_idem := fun _ => rfl
        fl32_rel := fun x _ _ => by
          show |x - x| ≤ _
          rw [sub_self, abs_zero]
          exact div_nonneg (abs_nonneg x) (by positivity)
        fl64_rel := fun x _ _ => by
          show |x - x| ≤ _
          rw [sub_self, abs_zero]
          exact div_nonneg (abs_nonneg x) (by positivity)
        sin_abs_le := fun x => (hf x).1 }
  · exact
      { pi_close := by
          show |((p : ℚ) : ℝ) - Real.pi| ≤ _
          rw [abs_le]
          constructor <;> linarith
        sin_close := fun x _ => (hf x).2 }

/-! ## Rounding to nearest in a binade -/

theorem peakPlatform_accurate_398 (cfg : Config) (hf : cfg.ALERT_FREQUENCY_HZ = 10000)
    (hr : cfg.SAMPLE_RATE = 44100) : SineAccurate peakPlatform cfg 398 := by
  unfold SineAccurate
  rw [hf, hr, sin_index_398]
  have hc := cos_peak_bounds
  have hs : ((peakPlatform.sin (phase peakPlatform cfg 398) : ℚ) : ℝ) =
      999993656 / 1000000000 := by
    show (((999993656 / 1000000000 : ℚ) : ℚ) : ℝ) = _
    push_cast
    rfl
  rw [hs, abs_le]
  norm_num
  constructor <;> linarith [hc.1, hc.2]

theorem sampleAt_398_builtin {P : Platform} (hP : P.Sound) (h : SineAccurate P builtin 398) :
    sampleAt P builtin 398 = some 22936 := by
  obtain ⟨b0, b1⟩ := waveValue_398_builtin hP h
  exact toInt16_eq_some (truncToZero_eq_of_mem (by norm_num) (by exact_mod_cast b0)
    (by exact_mod_cast b1)) (by norm_num) (by norm_num)

/-- C3 (as stated, refuted): at index 398 of the built-in tone the exact value
`0.7 * 32767 * sin (2π * 10000 * 398 / 44100)` is about `22936.75`, which rounds to `22937`;
the sketch stores `22936`, on every platform whose arithmetic is sound and whose `PI` and sine
are accurate (such platforms exist), and on the exact-arithmetic platform `peakPlatform`. -/
theorem sample_398_truncated_not_rounded :
    (∀ P : Platform, P.Sound → P.Accurate → sampleAt P builtin 398 = some 22936) ∧
    (∃ P : Platform, P.Sound ∧ P.Accurate) ∧
    sampleAt peakPlatform builtin 398 = some 22936 ∧
    round ((7 / 10 : ℝ) * 32767 * Real.sin (2 * Real.pi * 10000 * 398 / 44100)) = 22937 := by
  refine ⟨fun P hP hA =>
      sampleAt_398_builtin hP (sineAccurate_of_accurate hP hA rfl rfl (by norm_num)),
    exists_sound_accurate,
    sampleAt_398_builtin peakPlatform_sound (peakPlatform_accurate_398 builtin rfl rfl), ?_⟩
  have e : (2 * Real.pi * 10000 * 398 / 44100 : ℝ) =
      2 * Real.pi * ((10000 : ℤ) : ℝ) * ((398 : ℕ) : ℝ) / ((44100 : ℤ) : ℝ) := by
    push_cast; ring
  rw [e, sin_index_398, round_eq, Int.floor_eq_iff]
  have hc := cos_peak_bounds
  push_cast
  constructor <;> linarith [hc.1, hc.2]

/-- C3 (amended): for every sample index the stored sample is the computed `double` value of
`volume * 32767 * sin(...)` truncated toward zero, not rounded to nearest: it is the integer
`t` of the same sign with `|t| ≤ |value| < |t| + 1`, and it fits the symmetric 16-bit range. -/
theorem sample_is_truncation (P : Platform) (hP : P.Sound) (cfg : Config)
    (h0 : 0 ≤ cfg.volume) (h1 : cfg.volume ≤ 1) (i : Nat) :
    ∃ t : ℤ, sampleAt P cfg i = some t ∧
      |(t : ℚ)| ≤ |waveValue P cfg i| ∧ |waveValue P cfg i| < |(t : ℚ)| + 1 ∧
      0 ≤ (t : ℚ) * waveValue P cfg i ∧ -32767 ≤ t ∧ t ≤ 32767 := by
  obtain ⟨e, -, l, u⟩ :=
    toInt16_of_abs_le (scaled_abs_le hP h0 (hP.sin_abs_le (phase P cfg i)))
      (amplitudeScale_le hP h1)
  exact ⟨_, e, truncToZero_abs_le _, abs_lt_truncToZero_add_one _, truncToZero_mul_nonneg _,
    l, u⟩

/-- C3 (amended) at index 398 of the built-in tone. -/
theorem sample_is_truncation_witness :
    ∃ t : ℤ, sampleAt peakPlatform builtin 398 = some t ∧
      |(t : ℚ)| ≤ |waveValue peakPlatform builtin 398| ∧
      |waveValue peakPlatform builtin 398| < |(t : ℚ)| + 1 ∧
      0 ≤ (t : ℚ) * waveValue peakPlatform builtin 398 ∧ -32767 ≤ t ∧ t ≤ 32767 :=
  sample_is_truncation peakPlatform peakPlatform_sound builtin (by norm_num [builtin])
    (by norm_num [builtin]) 398

theorem sampleAt_muted {P : Platform} (hP : P.Sound) {cfg : Config} (hv : cfg.volume = 0)
    (i : Nat) : sampleAt P cfg i = some 0 := by
  have hw : waveValue P cfg i = 0 := by
    unfold waveValue scaled
    rw [amplitudeScale_muted hP hv, zero_mul, hP.fl64_zero]
  unfold sampleAt
  rw [hw]
  exact toInt16_eq_some (truncToZero_eq_of_mem (le_refl 0) (by norm_num) (by norm_num))
    (by norm_num) (by norm_num)

theorem waveValue_fullVolume_bounds {P : Platform} (hP : P.Sound) (cfg : Config)
    (hv : cfg.volume = 1) {i : Nat} (hs : |P.sin (phase P cfg i)| ≤ 9999936575 / 10000000000) :
    -(((32766 : ℤ) : ℚ) + 1) < waveValue P cfg i ∧ waveValue P cfg i < ((32766 : ℤ) : ℚ) + 1 := by
  obtain ⟨s0, s1⟩ := abs_le.mp hs
  have hY : (1 : ℚ) ≤ |32767 * (9999936575 / 10000000000)| := by
    rw [abs_of_pos (by norm_num)]; norm_num
  have hY2 : |(32767 : ℚ) * (9999936575 / 10000000000)| ≤ 2 ^ 127 := by
    rw [abs_of_pos (by norm_num)]; norm_num
  have hN : (1 : ℚ) ≤ |-(32767 * (9999936575 / 10000000000))| := by
    rw [abs_neg]; exact hY
  have hN2 : |-((32767 : ℚ) * (9999936575 / 10000000000))| ≤ 2 ^ 127 := by
    rw [abs_neg]; exact hY2
  have up := fl64_le_of_le hP
    (show 32767 * P.sin (phase P cfg i) ≤ 32767 * (9999936575 / 10000000000) by linarith)
    hY hY2
  have dn := fl64_ge_of_ge hP
    (show -(32767 * (9999936575 / 10000000000)) ≤ 32767 * P.sin (phase P cfg i) by linarith)
    hN hN2
  rw [abs_of_pos (by norm_num)] at up
  rw [abs_neg, abs_of_pos (by norm_num)] at dn
  unfold waveValue scaled
  rw [amplitudeScale_fullVolume hP hv]
  constructor
  · refine lt_of_lt_of_le ?_ dn
    norm_num
  · refine lt_of_le_of_lt up ?_
    norm_num

theorem sampleAt_fullVolume_le {P : Platform} (hP : P.Sound) {i : Nat}
    (h : SineAccurate P fullVolume i) :
    ∃ t : ℤ, sampleAt P fullVolume i = some t ∧ -32766 ≤ t ∧ t ≤ 32766 := by
  obtain ⟨b0, b1⟩ := waveValue_fullVolume_bounds hP fullVolume rfl
    (sine_abs_le_of_accurate rfl rfl h)
  obtain ⟨l, u⟩ := truncToZero_bounds b0 b1
  exact ⟨_, toInt16_eq_some rfl (by omega) (by omega), l, u⟩

theorem sampleAt_398_fullVolume {P : Platform} (hP : P.Sound)
    (h : SineAccurate P fullVolume 398) : sampleAt P fullVolume 398 = some 32766 := by
  obtain ⟨s0, s1⟩ := sine_398_of_accurate (show fullVolume.ALERT_FREQUENCY_HZ = 10000 from rfl) rfl h
  obtain ⟨b0, b1⟩ := fl64_mul_bounds hP (le_refl (32767 : ℚ)) (le_refl (32767 : ℚ)) s0 s1
    (by norm_num) (by norm_num) (by norm_num) (by norm_num)
  have hw : waveValue P fullVolume 398 = P.fl64 (32767 * P.sin (phase P fullVolume 398)) := by
    unfold waveValue scaled
    rw [amplitudeScale_fullVolume hP (show fullVolume.volume = 1 from rfl)]
  unfold sampleAt
  rw [hw]
  refine toInt16_eq_some (truncToZero_eq_of_mem (by norm_num) ?_ ?_) (by norm_num) (by norm_num)
  · refine le_trans ?_ b0
    norm_num
  · refine lt_of_le_of_lt b1 ?_
    norm_num

theorem sampleAt_43_fullVolume {P : Platform} (hP : P.Sound)
    (h : SineAccurate P fullVolume 43) : sampleAt P fullVolume 43 = some (-32766) := by
  obtain ⟨s0, s1⟩ := sine_43_of_accurate (show fullVolume.ALERT_FREQUENCY_HZ = 10000 from rfl) rfl h
  have hY : (1 : ℚ) ≤ |-(32767 * (9999936554 / 10000000000))| := by
    rw [abs_neg, abs_of_pos (by norm_num)]; norm_num
  have hY2 : |-((32767 : ℚ) * (9999936554 / 10000000000))| ≤ 2 ^ 127 := by
    rw [abs_neg, abs_of_pos (by norm_num)]; norm_num
  have up := fl64_le_of_le hP
    (show 32767 * P.sin (phase P fullVolume 43) ≤ -(32767 * (9999936554 / 10000000000)) by
      linarith) hY hY2
  rw [abs_neg, abs_of_pos (by norm_num)] at up
  obtain ⟨b0, -⟩ := waveValue_fullVolume_bounds hP fullVolume rfl
    (show |P.sin (phase P fullVolume 43)| ≤ 9999936575 / 10000000000 by
      rw [abs_le]; constructor <;> linarith)
  have hw : waveValue P fullVolume 43 = P.fl64 (32767 * P.sin (phase P fullVolume 43)) := by
    unfold waveValue scaled
    rw [amplitudeScale_fullVolume hP (show fullVolume.volume = 1 from rfl)]
  unfold sampleAt
  refine toInt16_eq_some (truncToZero_eq_neg_of_mem (by norm_num) ?_ ?_) (by norm_num)
    (by norm_num)
  · rw [hw]
    refine le_trans up ?_
    norm_num
  · refine lt_of_le_of_lt ?_ b0
    norm_num

/-- C7 (as stated, refuted): at full volume no sample reaches the signed 16-bit maximum or
minimum. On no platform whose arithmetic is sound and whose `PI` and sine are accurate (such
platforms exist) is there an index below 88200 whose sample is `32767`, `-32767` or `-32768`;
at index 398, a crest of the tone, the sample is `32766`. -/
theorem fullVolume_peak_below_maximum :
    (¬ ∃ (P : Platform) (i : Nat), P.Sound ∧ P.Accurate ∧ i < 88200 ∧
      (sampleAt P fullVolume i = some 32767 ∨ sampleAt P fullVolume i = some (-32767) ∨
        sampleAt P fullVolume i = some (-32768))) ∧
    (∃ P : Platform, P.Sound ∧ P.Accurate) ∧
    (∀ P : Platform, P.Sound → P.Accurate → sampleAt P fullVolume 398 = some 32766) ∧
    sampleAt peakPlatform fullVolume 398 = some 32766 := by
  refine ⟨?_, exists_sound_accurate, fun P hP hA =>
      sampleAt_398_fullVolume hP (sineAccurate_of_accurate hP hA rfl rfl (by norm_num)),
    sampleAt_398_fullVolume peakPlatform_sound (peakPlatform_accurate_398 fullVolume rfl rfl)⟩
  rintro ⟨P, i, hP, hA, hi, h⟩
  obtain ⟨t, ht, l, u⟩ := sampleAt_fullVolume_le hP (sineAccurate_of_accurate hP hA rfl rfl hi)
  rw [ht] at h
  rcases h with h | h | h <;> · injection h with h; omega

/-- C7 (amended): with volume 0.0 every sample is exactly 0. With volume 1.0 (10000 Hz at
44100 Hz) every sample is defined and within the signed 16-bit range; wherever the sine is
computed accurately (as it is at every index below 88200 when `PI` and the library sine are
accurate) the sample lies in `[-32766, 32766]`, and these two peaks are reached, at index 398
and at index 43: truncation keeps the peaks one short of `±32767`. -/
theorem volume_boundaries (P : Platform) (hP : P.Sound) :
    (∀ (cfg : Config) (i : Nat), cfg.volume = 0 → sampleAt P cfg i = some 0) ∧
    (∀ i : Nat, ∃ t : ℤ, sampleAt P fullVolume i = some t ∧ -32767 ≤ t ∧ t ≤ 32767) ∧
    (∀ i : Nat, SineAccurate P fullVolume i →
      ∃ t : ℤ, sampleAt P fullVolume i = some t ∧ -32766 ≤ t ∧ t ≤ 32766) ∧
    (P.Accurate → ∀ i : Nat, i < 88200 → SineAccurate P fullVolume i) ∧
    (SineAccurate P fullVolume 398 → sampleAt P fullVolume 398 = some 32766) ∧
    (SineAccurate P fullVolume 43 → sampleAt P fullVolume 43 = some (-32766)) := by
  refine ⟨fun cfg i hv => sampleAt_muted hP hv i, fun i => ?_,
    fun i h => sampleAt_fullVolume_le hP h,
    fun hA i hi => sineAccurate_of_accurate hP hA rfl rfl hi, sampleAt_398_fullVolume hP,
    sampleAt_43_fullVolume hP⟩
  obtain ⟨e, -, l, u⟩ :=
    toInt16_of_abs_le
      (scaled_abs_le hP (show (0 : ℚ) ≤ fullVolume.volume by norm_num [fullVolume])
        (hP.sin_abs_le (phase P fullVolume i)))
      (amplitudeScale_le hP (show fullVolume.volume ≤ 1 by norm_num [fullVolume]))
  exact ⟨_, e, l, u⟩

/-- C7 (amended) at index 398: `0` when muted, `32766` at full volume. -/
theorem volume_boundaries_witness :
    sampleAt peakPlatform muted 398 = some 0 ∧
      sampleAt peakPlatform fullVolume 398 = some 32766 :=
  ⟨(volume_boundaries peakPlatform peakPlatform_sound).1 muted 398 rfl,
    (volume_boundaries peakPlatform peakPlatform_sound).2.2.2.2.1
      (peakPlatform_accurate_398 fullVolume rfl rfl)⟩

end CatCollar
